import Mathlib

/-!
Verification development for the sitemap-generator repository
(`app.py`, `utils/website_scraper.py`, `utils/sitemap_generator.py`).

The Python code is shallowly embedded over `Str := List Char`.  Python
`str` values are modelled as lists of characters; the pieces of the
standard library the code relies on (`urllib.parse.urlparse`,
`urlunparse`, `urljoin`, `str` methods, `xml.etree.ElementTree`
serialization and parsing) are translated faithfully from CPython 3.11.
Network transport (`requests.Session.get` / `head`) is the excluded
collaborator layer: a crawl run is parameterized by a `Site` function
giving each URL's fetch outcome, and by an oracle for the best-effort
`Last-Modified` lookup.  BeautifulSoup parsing is modelled by giving each
fetched HTML document directly as the lists of candidate attribute
values that the extraction loops of the scraper iterate over.

Python exceptions are modelled with `Option`: a function that can raise
an exception that escapes to its caller returns `none` in that case.
Call sites that wrap an operation in `try/except` translate the `none`
case to whatever the handler does.
-/

namespace Sitemap

abbrev Str := List Char

def ofStr (s : String) : Str := s.toList

/-! ## Python string primitives -/

/-- Python `str.lower()` restricted to ASCII letters (the code only
lowercases URL hosts, paths and header values, which are ASCII). -/
def lowerChar (c : Char) : Char :=
  if 65 ≤ c.toNat ∧ c.toNat ≤ 90 then Char.ofNat (c.toNat + 32) else c

def pyLower (s : Str) : Str := s.map lowerChar

/-- Characters accepted by Python `str.strip()` / `str.isspace()` for the
ASCII range. -/
def isPySpace (c : Char) : Bool :=
  c = ' ' ∨ c = '\t' ∨ c = '\n' ∨ c = '\x0d' ∨ c = '\x0b' ∨ c = '\x0c'

/-- Python `str.strip()` (both ends). -/
def pyStrip (s : Str) : Str :=
  ((s.dropWhile isPySpace).reverse.dropWhile isPySpace).reverse

/-- Python `a.startswith(b)`. -/
def startsWith (s pre : Str) : Bool := s.take pre.length = pre

/-- Python `a.endswith(b)`. -/
def endsWith (s suf : Str) : Bool := s.drop (s.length - suf.length) = suf

/-- Python `b in a` (substring containment). -/
def containsSub (s sub : Str) : Bool :=
  (List.range (s.length + 1)).any (fun i => startsWith (s.drop i) sub)

/-- Python `s.find(c)`: index of the first occurrence, `none` for `-1`. -/
def pyFind (s : Str) (c : Char) : Option Nat := s.findIdx? (· = c)

/-- Python `s.find(c, start)`. -/
def pyFindFrom (s : Str) (c : Char) (start : Nat) : Option Nat :=
  ((s.drop start).findIdx? (· = c)).map (· + start)

/-- Python `s.rfind(c)`: index of the last occurrence. -/
def pyRfind (s : Str) (c : Char) : Option Nat :=
  (s.reverse.findIdx? (· = c)).map (fun i => s.length - 1 - i)

/-- Python `s.split(sep)` for a one-character separator: keeps empty
pieces, `''.split(c) == ['']`. -/
def pySplit (c : Char) : Str → List Str
  | [] => [[]]
  | a :: rest =>
      if a = c then [] :: pySplit c rest
      else
        match pySplit c rest with
        | [] => [[a]]
        | s :: ss => (a :: s) :: ss

/-- Python `sep.join(parts)` for a one-character separator. -/
def pyJoin (c : Char) : List Str → Str
  | [] => []
  | [s] => s
  | s :: rest => s ++ c :: pyJoin c rest

/-- Python `list[-1]` on a split result (split results are never empty). -/
def pyLast (l : List Str) : Str := l.getLastD []

/-! ## `urllib.parse` (CPython 3.11)

`urlparse` / `urlunparse` / `urljoin` translated from
`Lib/urllib/parse.py`.  `pyUrlparse` returns `none` where CPython raises
`ValueError` (mismatched `[`/`]` in the authority).  Bracketed IPv6
hosts, whose validation needs `ipaddress`, are conservatively treated as
the raising case as well; no URL in this repository's data flow carries
a bracketed host.  The non-ASCII NFKC check of `_checknetloc` is not
modelled (it never raises on ASCII authorities). -/

structure ParsedUrl where
  scheme : Str
  netloc : Str
  path : Str
  params : Str
  query : Str
  fragment : Str
deriving DecidableEq, Repr

def schemeChars : Str :=
  ofStr ("abcdefghijklmnopqrstuvwxyzABCDEFGHIJKLMNOPQRSTUVWXYZ0123456789+-.")

def usesParams : List Str :=
  [ofStr (""), ofStr ("ftp"), ofStr ("hdl"), ofStr ("prospero"), ofStr ("http"),
   ofStr ("imap"), ofStr ("https"), ofStr ("shttp"), ofStr ("rtsp"), ofStr ("rtsps"),
   ofStr ("rtspu"), ofStr ("sip"), ofStr ("sips"), ofStr ("mms"), ofStr ("sftp"),
   ofStr ("tel")]

def usesRelative : List Str :=
  [ofStr (""), ofStr ("ftp"), ofStr ("http"), ofStr ("gopher"), ofStr ("nntp"),
   ofStr ("imap"), ofStr ("wais"), ofStr ("file"), ofStr ("https"), ofStr ("shttp"),
   ofStr ("mms"), ofStr ("prospero"), ofStr ("rtsp"), ofStr ("rtsps"), ofStr ("rtspu"),
   ofStr ("sftp"), ofStr ("svn"), ofStr ("svn+ssh"), ofStr ("ws"), ofStr ("wss")]

def usesNetloc : List Str :=
  [ofStr (""), ofStr ("ftp"), ofStr ("http"), ofStr ("gopher"), ofStr ("nntp"),
   ofStr ("telnet"), ofStr ("imap"), ofStr ("wais"), ofStr ("file"), ofStr ("mms"),
   ofStr ("https"), ofStr ("shttp"), ofStr ("snews"), ofStr ("prospero"),
   ofStr ("rtsp"), ofStr ("rtsps"), ofStr ("rtspu"), ofStr ("rsync"), ofStr ("svn"),
   ofStr ("svn+ssh"), ofStr ("sftp"), ofStr ("nfs"), ofStr ("git"), ofStr ("git+ssh"),
   ofStr ("ws"), ofStr ("wss")]

/-- `_WHATWG_C0_CONTROL_OR_SPACE` stripping plus removal of
`_UNSAFE_URL_BYTES_TO_REMOVE` (tab, CR, LF), as done at the top of
`urlsplit`. -/
def urlsplitClean (s : Str) : Str :=
  (s.dropWhile (fun c => c.toNat ≤ 32)).filter
    (fun c => ¬ (c = '\t' ∨ c = '\x0d' ∨ c = '\n'))

/-- `_splitnetloc(url, 2)`: authority runs to the first of `/ ? #`. -/
def splitNetloc (s : Str) : Str × Str :=
  ((s.drop 2).takeWhile (fun c => ¬ (c = '/' ∨ c = '?' ∨ c = '#')),
   (s.drop 2).dropWhile (fun c => ¬ (c = '/' ∨ c = '?' ∨ c = '#')))

structure SplitUrl where
  scheme : Str
  netloc : Str
  rest : Str
  query : Str
  fragment : Str
deriving DecidableEq, Repr

/-- `urlsplit(url, scheme=default)` with `allow_fragments=True`. -/
def pyUrlsplit (url0 : Str) (defaultScheme : Str) : Option SplitUrl :=
  let url := urlsplitClean url0
  -- scheme detection
  let (scheme, url) :=
    match pyFind url ':' with
    | none => (defaultScheme, url)
    | some i =>
        if 0 < i ∧ (url.headD ' ').isAlpha ∧ (url.headD ' ').toNat ≤ 127 ∧
            (url.take i).all (fun c => c ∈ schemeChars) then
          (pyLower (url.take i), url.drop (i + 1))
        else (defaultScheme, url)
  if startsWith url (ofStr ("//")) then
    let (netloc, url) := splitNetloc url
    if ('[' ∈ netloc ∧ ']' ∉ netloc) ∨ (']' ∈ netloc ∧ '[' ∉ netloc) then none
    else if '[' ∈ netloc ∧ ']' ∈ netloc then none  -- bracketed-host validation not modelled
    else
      let (url, fragment) :=
        match pyFind url '#' with
        | none => (url, ([] : Str))
        | some i => (url.take i, url.drop (i + 1))
      let (url, query) :=
        match pyFind url '?' with
        | none => (url, ([] : Str))
        | some i => (url.take i, url.drop (i + 1))
      some ⟨scheme, netloc, url, query, fragment⟩
  else
    let (url, fragment) :=
      match pyFind url '#' with
      | none => (url, ([] : Str))
      | some i => (url.take i, url.drop (i + 1))
    let (url, query) :=
      match pyFind url '?' with
      | none => (url, ([] : Str))
      | some i => (url.take i, url.drop (i + 1))
    some ⟨scheme, [], url, query, fragment⟩

/-- `_splitparams` (only ever called when `';' in url`). -/
def splitParams (url : Str) : Str × Str :=
  let i : Option Nat :=
    if '/' ∈ url then
      match pyRfind url '/' with
      | none => pyFind url ';'
      | some j => pyFindFrom url ';' j
    else pyFind url ';'
  match i with
  | none => (url, [])
  | some i => (url.take i, url.drop (i + 1))

/-- `urlparse(url, scheme=default, allow_fragments=True)`. -/
def pyUrlparseWith (url : Str) (defaultScheme : Str) : Option ParsedUrl :=
  (pyUrlsplit url defaultScheme).map fun s =>
    if s.scheme ∈ usesParams ∧ ';' ∈ s.rest then
      let (path, params) := splitParams s.rest
      ⟨s.scheme, s.netloc, path, params, s.query, s.fragment⟩
    else ⟨s.scheme, s.netloc, s.rest, [], s.query, s.fragment⟩

/-- `urlparse(url)`. -/
def pyUrlparse (url : Str) : Option ParsedUrl := pyUrlparseWith url []

/-- First reassignment of `urlunsplit` (CPython 3.11): prepend
`//netloc`, forcing a leading slash on a relative path. -/
def unsplitNetloc (scheme netloc url : Str) : Str :=
  if netloc ≠ [] ∨ (scheme ≠ [] ∧ scheme ∈ usesNetloc ∧ ¬ startsWith url (ofStr ("//"))) then
    ofStr ("//") ++ netloc ++ (if url ≠ [] ∧ url.headD ' ' ≠ '/' then '/' :: url else url)
  else url

def addScheme (scheme url : Str) : Str :=
  if scheme ≠ [] then scheme ++ ':' :: url else url

def addQuery (query url : Str) : Str :=
  if query ≠ [] then url ++ '?' :: query else url

def addFragment (fragment url : Str) : Str :=
  if fragment ≠ [] then url ++ '#' :: fragment else url

/-- `urlunsplit` (CPython 3.11), as the four sequential reassignments. -/
def pyUrlunsplit (scheme netloc url query fragment : Str) : Str :=
  addFragment fragment (addQuery query (addScheme scheme (unsplitNetloc scheme netloc url)))

/-- `urlunparse`. -/
def pyUrlunparse (scheme netloc path params query fragment : Str) : Str :=
  let url := if params ≠ [] then path ++ ';' :: params else path
  pyUrlunsplit scheme netloc url query fragment

/-- `urljoin(base, url)`; `none` when one of the two `urlparse` calls
raises. -/
def pyUrljoin (base url : Str) : Option Str :=
  if base = [] then some url
  else if url = [] then some base
  else do
    let b ← pyUrlparseWith base []
    let p ← pyUrlparseWith url b.scheme
    if p.scheme ≠ b.scheme ∨ p.scheme ∉ usesRelative then
      return url
    let netloc := if p.scheme ∈ usesNetloc then (if p.netloc ≠ [] then p.netloc else b.netloc)
                  else p.netloc
    if p.scheme ∈ usesNetloc ∧ p.netloc ≠ [] then
      return pyUrlunparse p.scheme p.netloc p.path p.params p.query p.fragment
    if p.path = [] ∧ p.params = [] then
      let query := if p.query = [] then b.query else p.query
      return pyUrlunparse p.scheme netloc b.path b.params query p.fragment
    let baseParts :=
      let parts := pySplit '/' b.path
      if pyLast parts ≠ [] then parts.dropLast else parts
    let segments :=
      if startsWith p.path (ofStr ("/")) then pySplit '/' p.path
      else
        let segs := baseParts ++ pySplit '/' p.path
        -- segments[1:-1] = filter(None, segments[1:-1])
        match segs with
        | [] => []
        | s0 :: rest =>
            s0 :: ((rest.dropLast.filter (· ≠ [])) ++ rest.drop (rest.length - 1))
    let resolved := segments.foldl
      (fun acc seg =>
        if seg = ofStr ("..") then acc.dropLast
        else if seg = ofStr (".") then acc
        else acc ++ [seg]) []
    let resolved :=
      if pyLast segments = ofStr (".") ∨ pyLast segments = ofStr ("..") then
        resolved ++ [([] : Str)]
      else resolved
    let joined := pyJoin '/' resolved
    return pyUrlunparse p.scheme netloc (if joined = [] then ofStr ("/") else joined)
      p.params p.query p.fragment

/-! ## `utils/website_scraper.py` — `WebsiteScraper`

The scraper is embedded as pure functions over an explicit crawl state.
`Site` stands for the transport layer (`requests.Session.get`): `none`
models a `RequestException` (the code's `_make_request` returns `None`
then), and a `FetchResponse` gives the status code, the raw
`content-type` header value and the parsed document.  `PageDoc` models
the BeautifulSoup document as the candidate attribute values the
extraction loops of `_extract_links` / `_extract_images` iterate over
(anchor `href`s, form `action`s, `link` `href`s, and the union of the
nine image-candidate sources), each in document order. -/

/-- Python `set` state is modelled as an insertion-ordered duplicate-free
list; `addUnique` is `set.add`. -/
def addUnique (l : List Str) (u : Str) : List Str :=
  if u ∈ l then l else l ++ [u]

structure PageDoc where
  anchorHrefs : List Str
  formActions : List Str
  linkHrefs : List Str
  imageCandidates : List Str
deriving DecidableEq, Repr

structure FetchResponse where
  status : Nat
  contentType : Str
  doc : PageDoc
deriving DecidableEq, Repr

def Site := Str → Option FetchResponse

structure CrawlConfig where
  maxDepth : Nat
  includeImages : Bool
deriving DecidableEq, Repr

structure ScrapeState where
  visited : List Str
  foundUrls : List Str
  foundImages : List Str
deriving DecidableEq, Repr

/-- `WebsiteScraper.allowed_extensions`. -/
def allowedExtensions : List Str :=
  [ofStr (".html"), ofStr (".htm"), ofStr (".php"), ofStr (".asp"), ofStr (".aspx"),
   ofStr (".jsp"), ofStr (".cfm"), ofStr (".pdf"), ofStr (".doc"), ofStr (".docx"),
   ofStr (".xls"), ofStr (".xlsx"), ofStr (".ppt"), ofStr (".pptx")]

/-- `WebsiteScraper.image_extensions`. -/
def imageExtensions : List Str :=
  [ofStr (".jpg"), ofStr (".jpeg"), ofStr (".png"), ofStr (".gif"), ofStr (".bmp"),
   ofStr (".svg"), ofStr (".webp"), ofStr (".ico"), ofStr (".tiff"), ofStr (".tif"),
   ofStr (".avif"), ofStr (".jfif"), ofStr (".pjpeg"), ofStr (".pjp")]

/-- `_normalize_url`: drop the fragment, lower-case the authority, and
strip the final character when the result ends in `/`, the path is
longer than one character and the last path segment contains a dot.
The `except` branch returns the input unchanged. -/
def normalizeUrl (url : Str) : Str :=
  match pyUrlparse url with
  | none => url
  | some parsed =>
      let normalized :=
        pyUrlunparse parsed.scheme (pyLower parsed.netloc) parsed.path parsed.params
          parsed.query []
      if endsWith normalized (ofStr ("/")) ∧ 1 < parsed.path.length ∧
          '.' ∈ pyLast (pySplit '/' parsed.path) then
        normalized.dropLast
      else normalized

/-- `_is_same_domain` (the scraper's `base_domain` field is passed
explicitly).  The `except` branch returns `False`. -/
def isSameDomain (url baseDomain : Str) : Bool :=
  match pyUrlparse url with
  | none => false
  | some parsed => parsed.scheme ++ ofStr ("://") ++ parsed.netloc = baseDomain

/-- `_is_valid_page_url`. -/
def isValidPageUrl (url : Str) : Bool :=
  match pyUrlparse url with
  | none => false
  | some parsed =>
      let path := pyLower parsed.path
      if allowedExtensions.any (fun ext => endsWith path ext) then true
      else if '.' ∉ pyLast (pySplit '/' path) ∨ endsWith path (ofStr ("/")) then true
      else false

/-- `_is_valid_resource_url`. -/
def isValidResourceUrl (url : Str) : Bool :=
  match pyUrlparse url with
  | none => false
  | some parsed =>
      let path := pyLower parsed.path
      [ofStr (".css"), ofStr (".js"), ofStr (".xml"), ofStr (".txt"), ofStr (".pdf")].any
        (fun ext => endsWith path ext)

/-- `_is_valid_image_url`. -/
def isValidImageUrl (url : Str) : Bool :=
  match pyUrlparse url with
  | none => false
  | some parsed =>
      let path := pyLower parsed.path
      if imageExtensions.any (fun ext => endsWith path ext) then true
      else if [ofStr ("image"), ofStr ("img"), ofStr ("photo"), ofStr ("picture"),
          ofStr ("thumb"), ofStr ("avatar"), ofStr ("icon")].any
          (fun k => containsSub path k) then true
      else if parsed.query ≠ [] ∧ imageExtensions.any
          (fun ext => containsSub (pyLower parsed.query) (ext.drop 1)) then true
      else false

/-- `_resolve_url(url, base_url)`: `none` is Python `None` (rejected
href, or an exception caught by the surrounding `try`). -/
def resolveUrl (baseDomain : Str) (url : Str) (baseUrl : Str) : Option Str :=
  if url = [] ∨ startsWith url (ofStr ("#")) ∨ startsWith url (ofStr ("javascript:")) ∨
      startsWith url (ofStr ("mailto:")) ∨ startsWith url (ofStr ("tel:")) then
    none
  else
    let url := pyStrip url
    if startsWith url (ofStr ("http")) then
      some (if isSameDomain url baseDomain then normalizeUrl url else url)
    else
      (pyUrljoin baseUrl url).map normalizeUrl

/-- `_extract_links`: anchor and form candidates filtered by
`_is_valid_page_url`, `link` candidates by `_is_valid_resource_url`,
collected into a set (modelled in first-insertion order).  The `if
full_url and ...` guard drops both `None` and the empty string. -/
def extractLinks (baseDomain : Str) (doc : PageDoc) (baseUrl : Str) : List Str :=
  let step (valid : Str → Bool) (acc : List Str) (href : Str) : List Str :=
    match resolveUrl baseDomain href baseUrl with
    | none => acc
    | some full => if full ≠ [] ∧ valid full then addUnique acc full else acc
  let l1 := doc.anchorHrefs.foldl (step isValidPageUrl) []
  let l2 := doc.formActions.foldl (step isValidPageUrl) l1
  doc.linkHrefs.foldl (step isValidResourceUrl) l2

/-- `_extract_images`: every candidate source resolves via `_resolve_url`
and filters by `_is_valid_image_url`. -/
def extractImages (baseDomain : Str) (doc : PageDoc) (baseUrl : Str) : List Str :=
  doc.imageCandidates.foldl
    (fun acc src =>
      match resolveUrl baseDomain src baseUrl with
      | none => acc
      | some full => if full ≠ [] ∧ isValidImageUrl full then addUnique acc full else acc) []

/-- `_scrape_recursive`.  The recursion is driven by fuel; since each
recursive call increases `depth` and the code prunes at
`depth > max_depth`, fuel `max_depth + 2 - depth` is never exhausted.
Any exception inside the body is swallowed by the method's `except`
(none can occur in the modelled fragment); `time.sleep` is a no-op
here. -/
def scrapeRecursive (site : Site) (cfg : CrawlConfig) (baseDomain : Str) :
    Nat → Str → Nat → ScrapeState → ScrapeState
  | 0, _, _, st => st
  | Nat.succ fuel, url, depth, st =>
      if cfg.maxDepth < depth ∨ url ∈ st.visited then st
      else
        let st1 : ScrapeState := { st with visited := addUnique st.visited url }
        match site url with
        | none => st1
        | some resp =>
            if resp.status ≠ 200 then st1
            else
              let st2 : ScrapeState := { st1 with foundUrls := addUnique st1.foundUrls url }
              if ¬ containsSub (pyLower resp.contentType) (ofStr ("text/html")) then st2
              else
                let links := extractLinks baseDomain resp.doc url
                let st3 : ScrapeState :=
                  if cfg.includeImages then
                    { st2 with foundImages :=
                        (extractImages baseDomain resp.doc url).foldl addUnique st2.foundImages }
                  else st2
                links.foldl
                  (fun s link =>
                    if isSameDomain link baseDomain ∧ link ∉ s.visited then
                      scrapeRecursive site cfg baseDomain fuel link (depth + 1) s
                    else s) st3

/-- `_determine_change_frequency`; its bare `urlparse` call propagates a
`ValueError` to `scrape_website`, hence `Option`. -/
def determineChangeFrequency (url : Str) : Option Str :=
  (pyUrlparse url).map fun parsed =>
    let path := pyLower parsed.path
    if [ofStr ("/blog/"), ofStr ("/news/"), ofStr ("/posts/"), ofStr ("/articles/")].any
        (fun k => containsSub path k) then ofStr ("daily")
    else if [ofStr ("/products/"), ofStr ("/services/"), ofStr ("/portfolio/")].any
        (fun k => containsSub path k) then ofStr ("weekly")
    else if imageExtensions.any (fun ext => endsWith path ext) then ofStr ("yearly")
    else if [ofStr ("/about/"), ofStr ("/contact/"), ofStr ("/privacy/"), ofStr ("/terms/")].any
        (fun k => containsSub path k) then ofStr ("monthly")
    else if path ∈ [ofStr ("/"), ofStr ("/index.html"), ofStr ("/index.php")] then
      ofStr ("weekly")
    else ofStr ("monthly")

/-- `_calculate_priority(url, start_url)`; again `Option` because of the
bare `urlparse` calls (the method's local variables `path` and `depth`
appear inlined). -/
def calculatePriority (url startUrl : Str) : Option Str := do
  let p1 ← pyUrlparse url
  if url = startUrl ∨ p1.path ∈ [ofStr ("/"), ofStr ("/index.html"), ofStr ("/index.php")] then
    return ofStr ("1.0")
  let p2 ← pyUrlparse url
  if [ofStr ("/about/"), ofStr ("/contact/"), ofStr ("/services/"), ofStr ("/products/")].any
      (fun k => containsSub (pyLower p2.path) k) then return ofStr ("0.8")
  if [ofStr ("/blog/"), ofStr ("/news/"), ofStr ("/articles/")].any
      (fun k => containsSub (pyLower p2.path) k) then return ofStr ("0.7")
  if imageExtensions.any (fun ext => endsWith (pyLower p2.path) ext) then return ofStr ("0.4")
  if [ofStr (".css"), ofStr (".js"), ofStr (".pdf")].any
      (fun ext => endsWith (pyLower p2.path) ext) then return ofStr ("0.3")
  if ((pySplit '/' (pyLower p2.path)).filter (· ≠ [])).length ≤ 1 then return ofStr ("0.9")
  else if ((pySplit '/' (pyLower p2.path)).filter (· ≠ [])).length ≤ 2 then return ofStr ("0.7")
  else if ((pySplit '/' (pyLower p2.path)).filter (· ≠ [])).length ≤ 3 then return ofStr ("0.6")
  else return ofStr ("0.5")

/-- Value of `float(x['priority'])` on the strings `_calculate_priority`
can produce, scaled by ten (the scaling is order-preserving, and the
sort uses the value only through comparisons). -/
def pval (s : Str) : Nat :=
  if s = ofStr ("1.0") then 10
  else if s = ofStr ("0.9") then 9
  else if s = ofStr ("0.8") then 8
  else if s = ofStr ("0.7") then 7
  else if s = ofStr ("0.6") then 6
  else if s = ofStr ("0.5") then 5
  else if s = ofStr ("0.4") then 4
  else if s = ofStr ("0.3") then 3
  else 0

structure SitemapEntry where
  url : Str
  lastmod : Str
  changefreq : Str
  priority : Str
deriving DecidableEq, Repr

/-- One `url_info` dictionary of `scrape_website`'s loop.  `lastmod` is
the oracle for `_get_last_modified_date` (best-effort network lookup,
never fails). -/
def mkEntry (lastmod : Str → Str) (startUrl : Str) (u : Str) : Option SitemapEntry := do
  let cf ← determineChangeFrequency u
  let pr ← calculatePriority u startUrl
  some ⟨u, lastmod u, cf, pr⟩

/-- `list.sort(key=lambda x: float(x['priority']), reverse=True)` —
CPython's sort is stable also with `reverse=True`, so it is modelled by
stable insertion: an element is placed after every element of greater or
equal key. -/
def insertByDesc (e : SitemapEntry) : List SitemapEntry → List SitemapEntry
  | [] => [e]
  | x :: xs =>
      if pval x.priority < pval e.priority then e :: x :: xs
      else x :: insertByDesc e xs

def sortDesc (l : List SitemapEntry) : List SitemapEntry :=
  l.foldl (fun acc e => insertByDesc e acc) []

/-- `all_urls = found_urls.copy(); if include_images:
all_urls.update(found_images)` — the set union, in the canonical
insertion order. -/
def crawlUnion (cfg : CrawlConfig) (st : ScrapeState) : List Str :=
  if cfg.includeImages then st.foundImages.foldl addUnique st.foundUrls
  else st.foundUrls

/-- The normalized seed, base domain and final crawl state of a run of
`scrape_website` (`none` when `urlparse(start_url)` raises, which
`scrape_website` re-raises). -/
def crawlRun (site : Site) (cfg : CrawlConfig) (startUrl0 : Str) :
    Option (Str × Str × ScrapeState) :=
  (pyUrlparse (normalizeUrl startUrl0)).map fun parsed =>
    (normalizeUrl startUrl0,
     parsed.scheme ++ ofStr ("://") ++ parsed.netloc,
     scrapeRecursive site cfg (parsed.scheme ++ ofStr ("://") ++ parsed.netloc)
       (cfg.maxDepth + 2) (normalizeUrl startUrl0) 0 ⟨[], [], []⟩)

/-- `enum` enumerates a Python set in some (unspecified) iteration
order. -/
def IsEnumOf (enum all : List Str) : Prop :=
  enum.Nodup ∧ (∀ u ∈ enum, u ∈ all) ∧ (∀ u ∈ all, u ∈ enum)

instance (enum all : List Str) : Decidable (IsEnumOf enum all) := by
  unfold IsEnumOf; infer_instance

/-- The `for url in all_urls` entry-building loop of `scrape_website`
(an exception from a metadata call aborts the whole loop). -/
def buildEntries (lastmod : Str → Str) (startUrl : Str) : List Str → Option (List SitemapEntry)
  | [] => some []
  | u :: rest => do
      let e ← mkEntry lastmod startUrl u
      let es ← buildEntries lastmod startUrl rest
      return e :: es

/-- `scrape_website(start_url)`.  The iteration order of the final
`for url in all_urls` loop over the set union is unspecified in Python,
so it is supplied as the `enum` argument (theorems quantify over every
enumeration of the union, see `IsEnumOf`).  A `none` result models an
exception propagating to the caller; the route handler in `app.py` maps
an empty `ok` result to a JSON "not found" response. -/
def scrapeWebsite (site : Site) (cfg : CrawlConfig) (lastmod : Str → Str)
    (startUrl0 : Str) (enum : List Str) : Option (List SitemapEntry) :=
  match crawlRun site cfg startUrl0 with
  | none => none
  | some (startUrl, _, _) =>
      match buildEntries lastmod startUrl enum with
      | none => none
      | some entries => some (sortDesc entries)

/-! ## `utils/sitemap_generator.py` — `SitemapGenerator`

The generator builds an `xml.etree.ElementTree` tree of fixed shape —
`urlset` → `url` → (`loc` / `lastmod` / `changefreq` / `priority`) —
indents it and serializes it.  The three levels are modelled by three
record types mirroring the `Element` nodes the code creates, and
`ET.tostring` / `_indent_xml` are translated level by level.
`ET.fromstring` (used by `validate_sitemap`) is modelled by a recursive
descent routine for the XML fragment expat accepts on such documents:
elements, double- or single-quoted attributes, character data with the
five named entities and decimal character references, a default
`xmlns` declaration qualifying element tags as `{ns}tag`, and an
optional leading XML declaration.  Missing-key dictionary fields
(`url_info.get(...)` falsy) are modelled by the empty string. -/

def sitemapNs : Str := ofStr ("http://www.sitemaps.org/schemas/sitemap/0.9")

/-- `_escape_xml`: five sequential `str.replace` passes; none of the
replacement texts contains a character replaced by a later pass, so the
composition is the character-wise map. -/
def escapeXmlChar (c : Char) : Str :=
  if c = '&' then ofStr ("&amp;")
  else if c = '<' then ofStr ("&lt;")
  else if c = '>' then ofStr ("&gt;")
  else if c = '"' then ofStr ("&quot;")
  else if c = '\'' then ofStr ("&apos;")
  else [c]

def escapeXml (t : Str) : Str :=
  t.foldr (fun c acc => escapeXmlChar c ++ acc) []

/-- `xml.etree.ElementTree._escape_cdata` (text content). -/
def escCdataChar (c : Char) : Str :=
  if c = '&' then ofStr ("&amp;")
  else if c = '<' then ofStr ("&lt;")
  else if c = '>' then ofStr ("&gt;")
  else [c]

def escCdata (t : Str) : Str :=
  t.foldr (fun c acc => escCdataChar c ++ acc) []

/-- `xml.etree.ElementTree._escape_attrib` (attribute values). -/
def escAttribChar (c : Char) : Str :=
  if c = '&' then ofStr ("&amp;")
  else if c = '<' then ofStr ("&lt;")
  else if c = '>' then ofStr ("&gt;")
  else if c = '"' then ofStr ("&quot;")
  else if c = '\x0d' then ofStr ("&#13;")
  else if c = '\n' then ofStr ("&#10;")
  else if c = '\t' then ofStr ("&#09;")
  else [c]

def escAttrib (t : Str) : Str :=
  t.foldr (fun c acc => escAttribChar c ++ acc) []

/-- The characters Python's `re` matches with `\s` on `str` patterns:
the six ASCII whitespace characters plus the Unicode whitespace set
(U+001C-U+001F, U+0085, U+00A0, U+1680, U+2000-U+200A, U+2028, U+2029,
U+202F, U+205F, U+3000). -/
def isReSpace (c : Char) : Bool :=
  isPySpace c ∨
  c.toNat ∈ [0x1c, 0x1d, 0x1e, 0x1f, 0x85, 0xa0, 0x1680, 0x2028, 0x2029, 0x202f, 0x205f,
    0x3000] ∨
  (0x2000 ≤ c.toNat ∧ c.toNat ≤ 0x200a)

/-- Characters the regex `^https?://[^\s<>"\'()\[\]\x7b\x7d]+$` of
`_is_valid_url` forbids after the scheme. -/
def badUrlChar (c : Char) : Bool :=
  isReSpace c ∨ c ∈ ['<', '>', '"', '\'', '(', ')', '[', ']', '\x7b', '\x7d']

def matchesUrlCore (s : Str) : Bool :=
  (startsWith s (ofStr ("http://")) ∧ s.drop 7 ≠ [] ∧ (s.drop 7).all (fun c => ¬ badUrlChar c)) ∨
  (startsWith s (ofStr ("https://")) ∧ s.drop 8 ≠ [] ∧ (s.drop 8).all (fun c => ¬ badUrlChar c))

/-- `SitemapGenerator._is_valid_url`: `re.match` with a final `$`, which
also matches just before one trailing newline, plus the 2048-character
protocol ceiling. -/
def isValidUrlGen (s : Str) : Bool :=
  (matchesUrlCore s ∨ (s.getLast? = some '\n' ∧ matchesUrlCore s.dropLast)) ∧
    s.length ≤ 2048

/-- A leaf `Element` (`loc`, `lastmod`, `changefreq`, `priority`). -/
structure XmlLeaf where
  tag : Str
  text : Str
  tail : Str
deriving DecidableEq, Repr

/-- A `url` `Element`. -/
structure XmlNode where
  tag : Str
  text : Str
  children : List XmlLeaf
  tail : Str
deriving DecidableEq, Repr

/-- The `urlset` root `Element`. -/
structure XmlRoot where
  tag : Str
  attrs : List (Str × Str)
  text : Str
  children : List XmlNode
  tail : Str
deriving DecidableEq, Repr

/-- The `url` element `_create_url_element` builds for a kept entry:
a required `loc` child holding `_escape_xml(url)` and the optional
children only for truthy values. -/
def urlNode (e : SitemapEntry) : XmlNode :=
  ⟨ofStr ("url"), [],
    [⟨ofStr ("loc"), escapeXml e.url, []⟩] ++
    (if e.lastmod ≠ [] then [⟨ofStr ("lastmod"), e.lastmod, []⟩] else []) ++
    (if e.changefreq ≠ [] then [⟨ofStr ("changefreq"), e.changefreq, []⟩] else []) ++
    (if e.priority ≠ [] then [⟨ofStr ("priority"), e.priority, []⟩] else []), []⟩

/-- `_create_url_element`: dropped (`None`) when the URL is falsy or
fails `_is_valid_url`. -/
def createUrlElement (e : SitemapEntry) : Option XmlNode :=
  if e.url = [] ∨ ¬ isValidUrlGen e.url then none
  else some (urlNode e)

/-- `not elem.text or not elem.text.strip()`. -/
def isBlank (t : Str) : Bool := t.all isPySpace

def indentStr (level : Nat) : Str := '\n' :: List.replicate (2 * level) ' '

/-- `_indent_xml` on a childless element at `level`. -/
def indentLeaf (level : Nat) (l : XmlLeaf) : XmlLeaf :=
  if level ≠ 0 ∧ isBlank l.tail then { l with tail := indentStr level } else l

def fixLastLeaf (ind : Str) : List XmlLeaf → List XmlLeaf
  | [] => []
  | [l] => [if isBlank l.tail then { l with tail := ind } else l]
  | l :: rest => l :: fixLastLeaf ind rest

/-- `_indent_xml` on a `url` element at `level` (children are leaves). -/
def indentNode (level : Nat) (n : XmlNode) : XmlNode :=
  if n.children = [] then
    if level ≠ 0 ∧ isBlank n.tail then { n with tail := indentStr level } else n
  else
    { n with
      text := if isBlank n.text then indentStr level ++ ofStr ("  ") else n.text,
      tail := if isBlank n.tail then indentStr level else n.tail,
      children := fixLastLeaf (indentStr level)
        (n.children.map (indentLeaf (level + 1))) }

def fixLastNode (ind : Str) : List XmlNode → List XmlNode
  | [] => []
  | [n] => [if isBlank n.tail then { n with tail := ind } else n]
  | n :: rest => n :: fixLastNode ind rest

/-- `_indent_xml(root, 0)`. -/
def indentRoot (r : XmlRoot) : XmlRoot :=
  if r.children = [] then r
  else
    { r with
      text := if isBlank r.text then indentStr 0 ++ ofStr ("  ") else r.text,
      tail := if isBlank r.tail then indentStr 0 else r.tail,
      children := fixLastNode (indentStr 0) (r.children.map (indentNode 1)) }

/-- `ET.tostring` with `short_empty_elements=True` (`<tag />` for an
element with no text and no children) on the three levels; tails are
written after the element, the root's included. -/
def serializeLeaf (l : XmlLeaf) : Str :=
  '<' :: l.tag ++
    (if l.text = [] then ofStr (" />")
     else '>' :: escCdata l.text ++ ofStr ("</") ++ l.tag ++ ['>']) ++
  escCdata l.tail

def serialLeaves (ls : List XmlLeaf) : Str :=
  ls.foldr (fun c acc => serializeLeaf c ++ acc) []

def serializeNode (n : XmlNode) : Str :=
  '<' :: n.tag ++
    (if n.text = [] ∧ n.children = [] then ofStr (" />")
     else '>' :: escCdata n.text ++ serialLeaves n.children ++
       ofStr ("</") ++ n.tag ++ ['>']) ++
  escCdata n.tail

def serialNodes (ns : List XmlNode) : Str :=
  ns.foldr (fun c acc => serializeNode c ++ acc) []

def serializeAttrs (attrs : List (Str × Str)) : Str :=
  attrs.foldr (fun kv acc => ' ' :: kv.1 ++ '=' :: '"' :: escAttrib kv.2 ++ '"' :: acc) []

def serializeRoot (r : XmlRoot) : Str :=
  '<' :: r.tag ++ serializeAttrs r.attrs ++
    (if r.text = [] ∧ r.children = [] then ofStr (" />")
     else '>' :: escCdata r.text ++ serialNodes r.children ++
       ofStr ("</") ++ r.tag ++ ['>']) ++
  escCdata r.tail

def xmlDecl : Str := ofStr ("<?xml version=\"1.0\" encoding=\"UTF-8\"?>\n")

/-- `generate_sitemap`: build the `urlset` tree, `_indent_xml` it,
serialize, prepend the declaration. -/
def urlsetRoot (urls : List SitemapEntry) : XmlRoot :=
  ⟨ofStr ("urlset"), [(ofStr ("xmlns"), sitemapNs)], [], urls.filterMap createUrlElement, []⟩

def generateSitemap (urls : List SitemapEntry) : Str :=
  xmlDecl ++ serializeRoot (indentRoot (urlsetRoot urls))

/-! ### `ET.fromstring` model -/

inductive PElem where
  | mk (tag : Str) (text : Str) (children : List PElem)

def PElem.tag : PElem → Str
  | .mk t _ _ => t

def PElem.text : PElem → Str
  | .mk _ t _ => t

def PElem.children : PElem → List PElem
  | .mk _ _ c => c

/-- XML 1.0 character validity, which expat enforces: anything else in
character data, attribute values or character references is a
`not well-formed (invalid token)` / `reference to invalid character
number` `ParseError`. -/
def isXmlChar (c : Char) : Bool :=
  c.toNat = 0x9 ∨ c.toNat = 0xa ∨ c.toNat = 0xd ∨
  (0x20 ≤ c.toNat ∧ c.toNat ≤ 0xd7ff) ∨
  (0xe000 ≤ c.toNat ∧ c.toNat ≤ 0xfffd) ∨
  (0x10000 ≤ c.toNat ∧ c.toNat ≤ 0x10ffff)

/-- Decode one entity reference (input begins just after `&`): the five
XML named entities and decimal character references to valid XML
characters, anything else being an expat error. -/
def parseEntity (s : Str) : Option (Char × Str) :=
  if startsWith s (ofStr ("amp;")) then some ('&', s.drop 4)
  else if startsWith s (ofStr ("lt;")) then some ('<', s.drop 3)
  else if startsWith s (ofStr ("gt;")) then some ('>', s.drop 3)
  else if startsWith s (ofStr ("quot;")) then some ('"', s.drop 5)
  else if startsWith s (ofStr ("apos;")) then some ('\'', s.drop 5)
  else
    match s with
    | '#' :: rest =>
        let ds := rest.takeWhile Char.isDigit
        if ds ≠ [] ∧ (rest.drop ds.length).headD ' ' = ';' ∧
            isXmlChar (Char.ofNat (ds.foldl (fun n c => 10 * n + (c.toNat - 48)) 0)) then
          some (Char.ofNat (ds.foldl (fun n c => 10 * n + (c.toNat - 48)) 0),
            rest.drop (ds.length + 1))
        else none
    | _ => none

/-- Character data up to (not consuming) the next `<`; fails at end of
input, on a bad entity reference, or on an XML-invalid character (the
expat `not well-formed` error). -/
def parseTextF : Nat → Str → Option (Str × Str)
  | 0, _ => none
  | _, [] => none
  | Nat.succ f, c :: rest =>
      if c = '<' then some ([], c :: rest)
      else if c = '&' then
        match parseEntity rest with
        | none => none
        | some (ch, rest') =>
            match parseTextF f rest' with
            | none => none
            | some (t, r) => some (ch :: t, r)
      else if isXmlChar c then
        match parseTextF f rest with
        | none => none
        | some (t, r) => some (c :: t, r)
      else none

def isNameChar (c : Char) : Bool :=
  ¬ (isPySpace c ∨ c ∈ ['/', '>', '<', '=', '"', '\'', '&'])

def parseAttrValueF : Nat → Char → Str → Option (Str × Str)
  | 0, _, _ => none
  | _, _, [] => none
  | Nat.succ f, q, c :: rest =>
      if c = q then some ([], rest)
      else if c = '<' then none
      else if c = '&' then
        match parseEntity rest with
        | none => none
        | some (ch, rest') =>
            match parseAttrValueF f q rest' with
            | none => none
            | some (v, r) => some (ch :: v, r)
      else if isXmlChar c then
        match parseAttrValueF f q rest with
        | none => none
        | some (v, r) => some (c :: v, r)
      else none

def parseAttrsF : Nat → Str → Option (List (Str × Str) × Str)
  | 0, _ => none
  | Nat.succ f, s =>
      match s.dropWhile isPySpace with
      | [] => none
      | c :: rest =>
          if c = '/' ∨ c = '>' then some ([], c :: rest)
          else
            let name := (c :: rest).takeWhile isNameChar
            if name = [] then none
            else
              match ((c :: rest).drop name.length).dropWhile isPySpace with
              | [] => none
              | ceq :: s2 =>
                  if ceq ≠ '=' then none
                  else
                    match s2.dropWhile isPySpace with
                    | [] => none
                    | q :: s3 =>
                        if q = '"' ∨ q = '\'' then
                          match parseAttrValueF (s3.length + 1) q s3 with
                          | none => none
                          | some (v, s4) =>
                              match parseAttrsF f s4 with
                              | none => none
                              | some (attrs, rest') => some ((name, v) :: attrs, rest')
                        else none

def lookupAttr (attrs : List (Str × Str)) (k : Str) : Option Str :=
  (attrs.find? (fun kv => kv.1 == k)).map Prod.snd

/-- ElementTree tag qualification under a default namespace. -/
def qualifyTag (ns name : Str) : Str :=
  if ns = [] then name else '\x7b' :: ns ++ '\x7d' :: name

mutual

/-- One element, `<name attrs…/>` or `<name attrs…>content</name>`;
returns it with the remaining input.  `ns` is the inherited default
namespace. -/
def parseElemF : Nat → Str → Str → Option (PElem × Str)
  | 0, _, _ => none
  | Nat.succ f, ns, s =>
      match s with
      | [] => none
      | c0 :: s1 =>
          if c0 ≠ '<' then none
          else
            let name := s1.takeWhile isNameChar
            if name = [] then none
            else
              match parseAttrsF (s1.length + 1) (s1.drop name.length) with
              | none => none
              | some (attrs, s3) =>
                  let tag := qualifyTag ((lookupAttr attrs (ofStr ("xmlns"))).getD ns) name
                  match s3 with
                  | [] => none
                  | c3 :: s4 =>
                      if c3 = '/' then
                        match s4 with
                        | [] => none
                        | c4 :: s5 => if c4 = '>' then some (.mk tag [] [], s5) else none
                      else if c3 = '>' then
                        match parseContentF f ((lookupAttr attrs (ofStr ("xmlns"))).getD ns) s4 with
                        | none => none
                        | some (text, kids, s5) =>
                            let cname := s5.takeWhile isNameChar
                            if cname ≠ name then none
                            else
                              match (s5.drop cname.length).dropWhile isPySpace with
                              | [] => none
                              | c6 :: s7 =>
                                  if c6 = '>' then some (.mk tag text kids, s7) else none
                      else none

/-- Element content: leading character data and the child elements,
stopping after the `</` of the close tag (child tails are consumed and
discarded; `validate_sitemap` never reads them). -/
def parseContentF : Nat → Str → Str → Option (Str × List PElem × Str)
  | 0, _, _ => none
  | Nat.succ f, ns, s =>
      match parseTextF (s.length + 1) s with
      | none => none
      | some (text, s1) =>
          match s1 with
          | c :: c2 :: s2 =>
              if c = '<' ∧ c2 = '/' then some (text, [], s2)
              else if c = '<' then
                match parseElemF f ns s1 with
                | none => none
                | some (child, s2') =>
                    match parseContentF f ns s2' with
                    | none => none
                    | some (_, kids, s3) => some (text, child :: kids, s3)
              else none
          | _ => none

end

/-- Index of the first occurrence of `sub` in `s`. -/
def findSub (sub : Str) : Str → Option Nat
  | [] => if startsWith [] sub then some 0 else none
  | c :: t =>
      if startsWith (c :: t) sub then some 0
      else (findSub sub t).map (· + 1)

/-- `ET.fromstring` on this fragment: an optional XML declaration, the
root element, trailing whitespace. -/
def parseDoc (s : Str) : Option PElem :=
  let s :=
    if startsWith s (ofStr ("<?xml")) then
      match findSub (ofStr ("?>")) s with
      | some i => s.drop (i + 2)
      | none => []
    else s
  let s := s.dropWhile isPySpace
  match parseElemF (4 * s.length + 16) [] s with
  | none => none
  | some (root, rest) => if rest.all isPySpace then some root else none

def nsTag (t : Str) : Str := '\x7b' :: sitemapNs ++ '\x7d' :: t

inductive ValidateError where
  | parseError
  | badNamespace
  | tooManyUrls (n : Nat)
  | missingLoc
deriving DecidableEq, Repr

/-- `validate_sitemap`: parse, check the namespaced root tag, count the
direct `url` children, enforce the 50,000 ceiling, require a non-empty
`loc` in every `url`. -/
def validateSitemap (xml : Str) : Except ValidateError Nat :=
  match parseDoc xml with
  | none => .error .parseError
  | some root =>
      if root.tag ≠ nsTag (ofStr ("urlset")) then .error .badNamespace
      else
        let urls := root.children.filter (fun u => u.tag == nsTag (ofStr ("url")))
        if 50000 < urls.length then .error (.tooManyUrls urls.length)
        else if urls.any (fun u =>
            match u.children.find? (fun c => c.tag == nsTag (ofStr ("loc"))) with
            | none => true
            | some loc => loc.text = []) then .error .missingLoc
        else .ok urls.length

/-- An element tag acceptable to the parser: non-empty, made of name
characters. -/
def goodTag (t : Str) : Bool := t ≠ [] ∧ t.all isNameChar

/-- What `ET.fromstring` yields for a serialized leaf under default
namespace `ns` (the tail is consumed by the enclosing content). -/
def resolveLeaf (ns : Str) (l : XmlLeaf) : PElem :=
  .mk (qualifyTag ns l.tag) l.text []

/-- What `ET.fromstring` yields for a serialized `url` node. -/
def resolveNode (ns : Str) (n : XmlNode) : PElem :=
  .mk (qualifyTag ns n.tag) n.text (n.children.map (resolveLeaf ns))

/-- The decoded `loc` texts of the direct `url` children, as parsed back
from a document (used to state the escaping round-trip). -/
def sitemapLocTexts (doc : Str) : Option (List Str) :=
  (parseDoc doc).map fun root =>
    root.children.foldr
      (fun u acc =>
        match u.children.find? (fun c => c.tag == nsTag (ofStr ("loc"))) with
        | some l => l.text :: acc
        | none => acc) []

/-! ## Shared concrete crawl scenarios -/

def siteOf (pages : List (Str × FetchResponse)) : Site := fun u =>
  (pages.find? (fun pr => pr.1 == u)).map Prod.snd

def emptyDoc : PageDoc := ⟨[], [], [], []⟩

def exSeed : Str := ofStr ("https://example.com/")
def exCfg : CrawlConfig := ⟨1, true⟩
def noLastmod : Str → Str := fun _ => []

/-- Two concrete entries exercising the generator (one full, one with
falsy optional fields). -/
def tEntry1 : SitemapEntry :=
  ⟨ofStr ("https://example.com/?a=1&b=2"), ofStr ("2024-01-01T00:00:00+00:00"),
   ofStr ("monthly"), ofStr ("1.0")⟩

def tEntry2 : SitemapEntry :=
  ⟨ofStr ("https://example.com/about/"), [], [], ofStr ("0.8")⟩

/-- An entry with a well-formed URL but an XML-invalid control character
in `lastmod`. -/
def c9Entry : SitemapEntry :=
  ⟨ofStr ("https://example.com/"), ['\x01'], [], []⟩

deriving instance DecidableEq for Except

def c1Site : Site := siteOf
  [(exSeed, ⟨200, ofStr ("text/html"),
      ⟨[ofStr ("https://example.com/about/"), ofStr ("https://other.com/x")], [], [], []⟩⟩),
   (ofStr ("https://example.com/about/"), ⟨200, ofStr ("text/html"), emptyDoc⟩)]

/-- Modelled from the spec's §4.4 priority rules, with the amendment
that zero path segments score `0.9` (together with one segment) rather
than falling to the default `0.5`: rules evaluated top-to-bottom, first
match wins. -/
def specPriority (url startUrl : Str) : Option Str :=
  (pyUrlparse url).map fun parsed =>
    if url = startUrl ∨
        parsed.path ∈ [ofStr ("/"), ofStr ("/index.html"), ofStr ("/index.php")] then
      ofStr ("1.0")
    else
      if [ofStr ("/about/"), ofStr ("/contact/"), ofStr ("/services/"), ofStr ("/products/")].any
          (fun k => containsSub (pyLower parsed.path) k) then ofStr ("0.8")
      else if [ofStr ("/blog/"), ofStr ("/news/"), ofStr ("/articles/")].any
          (fun k => containsSub (pyLower parsed.path) k) then ofStr ("0.7")
      else if imageExtensions.any (fun ext => endsWith (pyLower parsed.path) ext) then
        ofStr ("0.4")
      else if [ofStr (".css"), ofStr (".js"), ofStr (".pdf")].any
          (fun ext => endsWith (pyLower parsed.path) ext) then ofStr ("0.3")
      else if ((pySplit '/' (pyLower parsed.path)).filter (· ≠ [])).length = 0 ∨
          ((pySplit '/' (pyLower parsed.path)).filter (· ≠ [])).length = 1 then ofStr ("0.9")
      else if ((pySplit '/' (pyLower parsed.path)).filter (· ≠ [])).length = 2 then ofStr ("0.7")
      else if ((pySplit '/' (pyLower parsed.path)).filter (· ≠ [])).length = 3 then ofStr ("0.6")
      else ofStr ("0.5")

/-- The descending-priority comparison the final sort establishes. -/
def PrioGE (a b : SitemapEntry) : Prop := pval b.priority ≤ pval a.priority

def c3Site : Site := siteOf [(exSeed, ⟨404, ofStr ("text/html"), emptyDoc⟩)]

def c7Site : Site := siteOf
  [(exSeed, ⟨200, ofStr ("text/html"),
      ⟨[], [], [], [ofStr ("http://other.com/a.png"), ofStr ("http://other.com/a.png#x")]⟩⟩)]

def c5A : Str := ofStr ("https://example.com/a")
def c5B : Str := ofStr ("https://example.com/b")

def c5Site : Site := siteOf
  [(exSeed, ⟨200, ofStr ("text/html"), ⟨[c5A, c5B], [], [], []⟩⟩),
   (c5A, ⟨200, ofStr ("text/html"), emptyDoc⟩),
   (c5B, ⟨200, ofStr ("text/html"), emptyDoc⟩)]

def c2Entry : SitemapEntry :=
  ⟨ofStr ("https://example.com/?a=1&b=2"), [], [], ofStr ("1.0")⟩

/-! ## Helper lemmas -/

theorem pySplit_ne_nil (c : Char) (s : Str) : pySplit c s ≠ [] := by
  cases s with
  | nil => simp [pySplit]
  | cons a t =>
      simp only [pySplit]
      split
      · simp
      · split <;> simp

theorem pySplit_append_sep (c : Char) (l : Str) :
    pySplit c (l ++ [c]) = pySplit c l ++ [[]] := by
  induction l with
  | nil => simp [pySplit]
  | cons a t ih =>
      by_cases h : a = c
      · subst h
        simp [pySplit, ih]
      · simp only [List.cons_append, pySplit, h, ite_false, List.append_eq]
        rw [ih]
        rcases ht : pySplit c t with _ | ⟨s, ss⟩
        · exact absurd ht (pySplit_ne_nil c t)
        · simp

theorem pyLast_of_endsWith_sep (c : Char) (s : Str)
    (h : endsWith s [c] = true) : pyLast (pySplit c s) = [] := by
  have hdrop : s.drop (s.length - 1) = [c] := by
    simpa [endsWith] using h
  obtain ⟨l, rfl⟩ : ∃ l, s = l ++ [c] := by
    refine ⟨s.take (s.length - 1), ?_⟩
    conv_lhs => rw [← List.take_append_drop (s.length - 1) s]
    rw [hdrop]
  rw [pySplit_append_sep]
  simp [pyLast, List.getLastD_eq_getLast?, List.getLast?_concat]

/-! ## Claim C1 -/

/-- C1, counterexample.  `_normalize_url` keeps the trailing slash of a
directory URL: the strip condition tests for a dot in the final path
segment, which is empty whenever the path ends in `/`, so
`normalize('https://example.com/about/')` returns the URL unchanged.
In the section-8 scenario the crawl records `https://example.com/about/`
(with trailing slash), and no entry `https://example.com/about` exists;
moreover a file-style URL can lose a trailing slash that belongs to its
query string. -/
theorem c1_counterexample :
    normalizeUrl (ofStr ("https://example.com/about/")) = ofStr ("https://example.com/about/") ∧
    scrapeWebsite c1Site exCfg noLastmod exSeed
        [exSeed, ofStr ("https://example.com/about/")] =
      some [⟨exSeed, [], ofStr ("weekly"), ofStr ("1.0")⟩,
            ⟨ofStr ("https://example.com/about/"), [], ofStr ("monthly"), ofStr ("0.8")⟩] ∧
    (crawlRun c1Site exCfg exSeed).map (fun r => r.2.2.foundUrls) =
      some [exSeed, ofStr ("https://example.com/about/")] ∧
    normalizeUrl (ofStr ("https://example.com/x.php?q=/")) =
      ofStr ("https://example.com/x.php?q=") := by
  refine ⟨by decide, by decide, by decide, by decide⟩

/-- C1, amended.  Whenever the final path segment of a parseable URL
contains no dot — in particular whenever the path ends in `/`, since the
segment after a trailing slash is empty — `_normalize_url` performs no
trailing-slash stripping at all: it returns exactly the reassembled URL
with lower-cased host and the fragment removed, for the root path and
for every other directory-style path alike.  (The strip fires only when
the final path segment does contain a dot and the fragment-free URL
still ends in `/`, a slash that then belongs to the query or params and
is removed from there.) -/
theorem c1_amended (u : Str) (p : ParsedUrl)
    (hp : pyUrlparse u = some p)
    (hseg : endsWith p.path (ofStr ("/")) = true ∨ '.' ∉ pyLast (pySplit '/' p.path)) :
    normalizeUrl u =
      pyUrlunparse p.scheme (pyLower p.netloc) p.path p.params p.query [] := by
  have hdot : '.' ∉ pyLast (pySplit '/' p.path) := by
    rcases hseg with h | h
    · rw [pyLast_of_endsWith_sep '/' p.path h]
      simp
    · exact h
  unfold normalizeUrl
  rw [hp]
  simp only [hdot, and_false, if_false]

/-- Witness for `c1_amended` at `https://example.com/about/`. -/
theorem c1_amended_witness :
    normalizeUrl (ofStr ("https://example.com/about/")) =
      pyUrlunparse (ofStr ("https")) (pyLower (ofStr ("example.com")))
        (ofStr ("/about/")) [] [] [] :=
  c1_amended (ofStr ("https://example.com/about/"))
    ⟨ofStr ("https"), ofStr ("example.com"), ofStr ("/about/"), [], [], []⟩
    (by decide) (Or.inl (by decide))

/-! ## Claim C6 -/

/-- C6, counterexample.  A discovered URL with an empty path (zero path
segments), such as `https://example.com` crawled from the seed
`https://example.com/`, matches none of the earlier rules and receives
priority `0.9` from the code's `depth <= 1` branch, where the claim's
rule table assigns `0.5` to "any other segment count (including zero
segments)". -/
theorem c6_counterexample :
    calculatePriority (ofStr ("https://example.com")) (ofStr ("https://example.com/")) =
      some (ofStr ("0.9")) ∧
    (pyUrlparse (ofStr ("https://example.com"))).map
        (fun p => ((pySplit '/' (pyLower p.path)).filter (· ≠ [])).length) = some 0 ∧
    (pyUrlparse (ofStr ("https://example.com"))).map ParsedUrl.path = some [] ∧
    some (ofStr ("0.9")) ≠ some (ofStr ("0.5")) := by
  refine ⟨by decide, by decide, by decide, by decide⟩

set_option maxHeartbeats 2000000 in
/-- C6, amended.  `_calculate_priority` evaluates the §4.4 rules
top-to-bottom with first match winning, exactly as claimed, except that
the segment-count fallback assigns `0.9` to zero segments as well as to
one: seed-or-alias `1.0`; then the four section keywords `0.8`; then
the three blog keywords `0.7`; then image extensions `0.4`; then
`.css`/`.js`/`.pdf` `0.3`; then zero or one segment `0.9`, two `0.7`,
three `0.6`, four or more `0.5`. -/
theorem c6_amended (url startUrl : Str) :
    calculatePriority url startUrl = specPriority url startUrl := by
  unfold calculatePriority specPriority
  cases hp : pyUrlparse url with
  | none => rfl
  | some p =>
      simp only [Option.bind_eq_bind, Option.pure_def, Option.some_bind, Option.map_some']
      split_ifs <;> first | rfl | omega

/-- Witness for `c6_amended` at the seed URL itself. -/
theorem c6_amended_witness :
    calculatePriority (ofStr ("https://example.com/")) (ofStr ("https://example.com/")) =
      specPriority (ofStr ("https://example.com/")) (ofStr ("https://example.com/")) :=
  c6_amended (ofStr ("https://example.com/")) (ofStr ("https://example.com/"))

/-! ## Claim C4 -/

theorem endsWith_single (s : Str) (c : Char) :
    endsWith s [c] = true ↔ s.getLast? = some c := by
  induction s with
  | nil => simp [endsWith]
  | cons a t ih =>
      cases t with
      | nil => simp [endsWith, List.getLast?]
      | cons b t2 =>
          have h1 : endsWith (a :: b :: t2) [c] = endsWith (b :: t2) [c] := by
            simp [endsWith, List.drop_succ_cons]
          rw [h1, ih, List.getLast?_cons_cons]

theorem getLast?_of_ne_nil (s : Str) (h : s ≠ []) : ∃ x, s.getLast? = some x :=
  Option.isSome_iff_exists.mp (by simpa using List.getLast?_isSome.mpr h)

theorem getLast?_append_right (a b : Str) (h : b ≠ []) :
    (a ++ b).getLast? = b.getLast? := by
  obtain ⟨x, hx⟩ := getLast?_of_ne_nil b h
  simp [List.getLast?_append, hx]

theorem getLast?_cons_ne (a : Char) (l : Str) (h : l ≠ []) :
    (a :: l).getLast? = l.getLast? := by
  cases l with
  | nil => exact absurd rfl h
  | cons b t => rw [List.getLast?_cons_cons]

theorem unsplitNetloc_ne_nil (scheme netloc url : Str) (h : url ≠ []) :
    unsplitNetloc scheme netloc url ≠ [] := by
  unfold unsplitNetloc
  split_ifs <;> simp_all

theorem getLast?_unsplitNetloc (scheme netloc url : Str) (h : url ≠ []) :
    (unsplitNetloc scheme netloc url).getLast? = url.getLast? := by
  obtain ⟨x, hx⟩ := getLast?_of_ne_nil url h
  unfold unsplitNetloc
  split_ifs with h1 h2
  · simp [List.getLast?_append, getLast?_cons_ne _ _ h, hx]
  · simp [List.getLast?_append, hx]
  · rfl

theorem addScheme_ne_nil (scheme u : Str) (h : u ≠ []) : addScheme scheme u ≠ [] := by
  unfold addScheme
  split_ifs <;> simp_all

theorem getLast?_addScheme (scheme u : Str) (h : u ≠ []) :
    (addScheme scheme u).getLast? = u.getLast? := by
  obtain ⟨x, hx⟩ := getLast?_of_ne_nil u h
  unfold addScheme
  split_ifs
  · simp [List.getLast?_append, getLast?_cons_ne _ _ h, hx]
  · rfl

theorem getLast?_addQuery (query u : Str) :
    (addQuery query u).getLast? = if query ≠ [] then query.getLast? else u.getLast? := by
  unfold addQuery
  split_ifs with h
  · obtain ⟨x, hx⟩ := getLast?_of_ne_nil query h
    simp [List.getLast?_append, getLast?_cons_ne _ _ h, hx]
  · rfl

theorem pathParams_ne_nil (path params : Str) (hpath : path ≠ []) :
    (if params ≠ [] then path ++ ';' :: params else path) ≠ [] := by
  split_ifs <;> simp_all

theorem getLast?_pathParams (path params : Str) :
    (if params ≠ [] then path ++ ';' :: params else path).getLast? =
      if params ≠ [] then params.getLast? else path.getLast? := by
  split_ifs with h
  · obtain ⟨x, hx⟩ := getLast?_of_ne_nil params h
    simp [List.getLast?_append, getLast?_cons_ne _ _ h, hx]
  · rfl

theorem getLast?_pyUrlunparse (scheme netloc path params query : Str) (hpath : path ≠ []) :
    (pyUrlunparse scheme netloc path params query []).getLast? =
      if query ≠ [] then query.getLast?
      else if params ≠ [] then params.getLast?
      else path.getLast? := by
  unfold pyUrlunparse pyUrlunsplit
  rw [show ∀ v : Str, addFragment [] v = v from fun v => by simp [addFragment]]
  rw [getLast?_addQuery,
    getLast?_addScheme _ _ (unsplitNetloc_ne_nil _ _ _ (pathParams_ne_nil _ _ hpath)),
    getLast?_unsplitNetloc _ _ _ (pathParams_ne_nil _ _ hpath),
    getLast?_pathParams]

/-- `_normalize_url` performs no stripping when neither the query nor the
params end in a slash (the path's own trailing slash, having an empty
final segment, never triggers the strip). -/
theorem normalizeUrl_no_strip (u : Str) (p : ParsedUrl)
    (hp : pyUrlparse u = some p)
    (hq : endsWith p.query (ofStr ("/")) = false)
    (hpr : endsWith p.params (ofStr ("/")) = false) :
    normalizeUrl u = pyUrlunparse p.scheme (pyLower p.netloc) p.path p.params p.query [] := by
  unfold normalizeUrl
  rw [hp]
  dsimp only
  rw [if_neg]
  rintro ⟨h1, h2, h3⟩
  have hpath : p.path ≠ [] := by
    intro he
    rw [he] at h2
    simp at h2
  have hlast : (pyUrlunparse p.scheme (pyLower p.netloc) p.path p.params p.query []).getLast? =
      some '/' := (endsWith_single _ '/').mp h1
  rw [getLast?_pyUrlunparse _ _ _ _ _ hpath] at hlast
  split_ifs at hlast with ha hb
  · exact absurd ((endsWith_single _ '/').mpr hlast) (by simp only [Bool.not_eq_true]; exact hq)
  · exact absurd ((endsWith_single _ '/').mpr hlast) (by simp only [Bool.not_eq_true]; exact hpr)
  · have : pyLast (pySplit '/' p.path) = [] :=
      pyLast_of_endsWith_sep '/' p.path ((endsWith_single _ '/').mpr hlast)
    rw [this] at h3
    simp at h3

theorem lowerChar_idem (c : Char) : lowerChar (lowerChar c) = lowerChar c := by
  by_cases h1 : 65 ≤ c.toNat ∧ c.toNat ≤ 90
  · have hval : (c.toNat + 32).isValidChar := Or.inl (by omega)
    have htn : (Char.ofNat (c.toNat + 32)).toNat = c.toNat + 32 := by
      unfold Char.ofNat
      rw [dif_pos hval]
      rfl
    have hlc : lowerChar c = Char.ofNat (c.toNat + 32) := by
      unfold lowerChar
      rw [if_pos h1]
    rw [hlc]
    unfold lowerChar
    rw [htn, if_neg (by omega)]
  · have hlc : lowerChar c = c := by
      unfold lowerChar
      rw [if_neg h1]
    rw [hlc, hlc]

theorem pyLower_idem (s : Str) : pyLower (pyLower s) = pyLower s := by
  unfold pyLower
  rw [List.map_map]
  exact List.map_congr_left (fun c _ => lowerChar_idem c)

/-- C4, counterexample.  `normalize` is not idempotent: on
`https://example.com/x.php?q=//` the first application strips one slash
from the end of the query (the URL ends in `/` and the final path
segment `x.php` contains a dot), and the second application strips
another. -/
theorem c4_counterexample :
    normalizeUrl (normalizeUrl (ofStr ("https://example.com/x.php?q=//"))) ≠
      normalizeUrl (ofStr ("https://example.com/x.php?q=//")) ∧
    normalizeUrl (ofStr ("https://example.com/x.php?q=//")) =
      ofStr ("https://example.com/x.php?q=/") ∧
    normalizeUrl (normalizeUrl (ofStr ("https://example.com/x.php?q=//"))) =
      ofStr ("https://example.com/x.php?q=") := by
  refine ⟨by decide, by decide, by decide⟩

/-- C4, amended.  `normalize` is idempotent on every URL whose parsed
query and params do not end in `/` (only there can the strip fire, and
it can fire again on the shortened query) and whose normalized form
re-parses to the same components with the host lower-cased and the
fragment gone — which holds for ordinary well-formed URLs. -/
theorem c4_amended (u : Str) (p : ParsedUrl)
    (hp : pyUrlparse u = some p)
    (hq : endsWith p.query (ofStr ("/")) = false)
    (hpr : endsWith p.params (ofStr ("/")) = false)
    (hrt : pyUrlparse (normalizeUrl u) =
      some ⟨p.scheme, pyLower p.netloc, p.path, p.params, p.query, []⟩) :
    normalizeUrl (normalizeUrl u) = normalizeUrl u := by
  have h1 := normalizeUrl_no_strip u p hp hq hpr
  have h2 := normalizeUrl_no_strip (normalizeUrl u)
    ⟨p.scheme, pyLower p.netloc, p.path, p.params, p.query, []⟩ hrt hq hpr
  rw [h2]
  simp only []
  rw [pyLower_idem, ← h1]

/-- Witness for `c4_amended` at `https://example.com/about/?q=1#top`. -/
theorem c4_amended_witness :
    normalizeUrl (normalizeUrl (ofStr ("https://example.com/about/?q=1#top"))) =
      normalizeUrl (ofStr ("https://example.com/about/?q=1#top")) :=
  c4_amended (ofStr ("https://example.com/about/?q=1#top"))
    ⟨ofStr ("https"), ofStr ("example.com"), ofStr ("/about/"), [], ofStr ("q=1"),
      ofStr ("top")⟩
    (by decide) (by decide) (by decide) (by decide)

/-! ## Sort and entry-building lemmas -/

theorem mem_insertByDesc (e a : SitemapEntry) (l : List SitemapEntry) :
    a ∈ insertByDesc e l ↔ a = e ∨ a ∈ l := by
  induction l with
  | nil => simp [insertByDesc]
  | cons x xs ih =>
      unfold insertByDesc
      split_ifs <;> simp [ih] <;> tauto

theorem insertByDesc_perm (e : SitemapEntry) (l : List SitemapEntry) :
    List.Perm (insertByDesc e l) (e :: l) := by
  induction l with
  | nil => exact List.Perm.refl _
  | cons x xs ih =>
      unfold insertByDesc
      split_ifs
      · exact List.Perm.refl _
      · exact (ih.cons x).trans (List.Perm.swap e x xs)

theorem sortDesc_perm (l : List SitemapEntry) : List.Perm (sortDesc l) l := by
  suffices h : ∀ acc : List SitemapEntry,
      List.Perm (l.foldl (fun acc e => insertByDesc e acc) acc) (acc ++ l) by
    simpa [sortDesc] using h []
  induction l with
  | nil => intro acc; simp
  | cons e t ih =>
      intro acc
      have h1 := ih (insertByDesc e acc)
      have h2 : List.Perm (insertByDesc e acc ++ t) ((e :: acc) ++ t) :=
        (insertByDesc_perm e acc).append_right t
      exact (h1.trans h2).trans List.perm_middle.symm

theorem insertByDesc_pairwise (e : SitemapEntry) (l : List SitemapEntry)
    (h : l.Pairwise PrioGE) : (insertByDesc e l).Pairwise PrioGE := by
  induction l with
  | nil => simp [insertByDesc, PrioGE]
  | cons x xs ih =>
      unfold insertByDesc
      rcases h with - | ⟨hx, hxs⟩
      split_ifs with hlt
      · refine List.Pairwise.cons ?_ (List.Pairwise.cons hx hxs)
        intro b hb
        rcases List.mem_cons.mp hb with rfl | hb
        · exact Nat.le_of_lt hlt
        · exact Nat.le_trans (hx b hb) (Nat.le_of_lt hlt)
      · refine List.Pairwise.cons ?_ (ih hxs)
        intro b hb
        rcases (mem_insertByDesc e b xs).mp hb with rfl | hb
        · exact Nat.le_of_not_lt hlt
        · exact hx b hb

theorem sortDesc_pairwise (l : List SitemapEntry) : (sortDesc l).Pairwise PrioGE := by
  suffices h : ∀ acc : List SitemapEntry, acc.Pairwise PrioGE →
      (l.foldl (fun acc e => insertByDesc e acc) acc).Pairwise PrioGE from
    h [] (by simp)
  induction l with
  | nil => intro acc hacc; exact hacc
  | cons e t ih => intro acc hacc; exact ih (insertByDesc e acc) (insertByDesc_pairwise e acc hacc)

theorem buildEntries_urls (lastmod : Str → Str) (startUrl : Str) :
    ∀ (enum : List Str) (es : List SitemapEntry),
      buildEntries lastmod startUrl enum = some es → es.map SitemapEntry.url = enum := by
  intro enum
  induction enum with
  | nil => intro es h; cases h; rfl
  | cons u rest ih =>
      intro es h
      unfold buildEntries at h
      cases he : mkEntry lastmod startUrl u with
      | none => rw [he] at h; simp at h
      | some e =>
          rw [he] at h
          cases hrest : buildEntries lastmod startUrl rest with
          | none => rw [hrest] at h; simp at h
          | some es0 =>
              rw [hrest] at h
              simp only [Option.some_bind, Option.bind_eq_bind, Option.pure_def] at h
              cases h
              have hu : e.url = u := by
                unfold mkEntry at he
                cases h1 : determineChangeFrequency u with
                | none => rw [h1] at he; simp at he
                | some cf =>
                    rw [h1] at he
                    cases h2 : calculatePriority u startUrl with
                    | none => rw [h2] at he; simp at he
                    | some pr =>
                        rw [h2] at he
                        simp only [Option.some_bind, Option.bind_eq_bind,
                          Option.pure_def, Option.some.injEq] at he
                        rw [← he]
              simp [hu, ih es0 hrest]

theorem buildEntries_mem (lastmod : Str → Str) (startUrl : Str) :
    ∀ (enum : List Str) (es : List SitemapEntry) (e : SitemapEntry),
      buildEntries lastmod startUrl enum = some es → e ∈ es →
      ∃ u ∈ enum, mkEntry lastmod startUrl u = some e := by
  intro enum
  induction enum with
  | nil => intro es e h he; cases h; simp at he
  | cons u rest ih =>
      intro es e h he
      unfold buildEntries at h
      cases h1 : mkEntry lastmod startUrl u with
      | none => rw [h1] at h; simp at h
      | some e0 =>
          rw [h1] at h
          cases hrest : buildEntries lastmod startUrl rest with
          | none => rw [hrest] at h; simp at h
          | some es0 =>
              rw [hrest] at h
              simp only [Option.some_bind, Option.bind_eq_bind, Option.pure_def,
                Option.some.injEq] at h
              subst h
              rcases List.mem_cons.mp he with rfl | he
              · exact ⟨u, by simp, h1⟩
              · obtain ⟨v, hv, hmk⟩ := ih es0 e hrest he
                exact ⟨v, by simp [hv], hmk⟩

/-- Decomposition of a successful `scrape_website` run. -/
theorem scrapeWebsite_eq (site : Site) (cfg : CrawlConfig) (lastmod : Str → Str)
    (seed : Str) (enum : List Str) (es : List SitemapEntry)
    (h : scrapeWebsite site cfg lastmod seed enum = some es) :
    ∃ es0, buildEntries lastmod (normalizeUrl seed) enum = some es0 ∧ es = sortDesc es0 := by
  unfold scrapeWebsite crawlRun at h
  cases hp : pyUrlparse (normalizeUrl seed) with
  | none => rw [hp] at h; simp at h
  | some p =>
      rw [hp] at h
      simp only [Option.map_some', Option.some_bind, Option.bind_eq_bind] at h
      cases hbe : buildEntries lastmod (normalizeUrl seed) enum with
      | none => rw [hbe] at h; simp at h
      | some es0 =>
          rw [hbe] at h
          simp only [Option.some_bind, Option.pure_def, Option.some.injEq] at h
          exact ⟨es0, rfl, h.symm⟩

theorem enum_of_nil (enum : List Str) (h : IsEnumOf enum []) : enum = [] := by
  cases enum with
  | nil => rfl
  | cons a t => exact absurd (h.2.1 a (by simp)) (by simp)

/-! ## Claim C3 -/

/-- C3, counterexample.  When the seed URL's fetch fails (here a 404 at
depth 0), `scrape_website` does not raise: `_scrape_recursive` swallows
the failure with a warning and records nothing, and the crawl returns
the ordinary empty result `some []` — not an error.  No `CrawlError`
(or any exception type) reaches the caller; `app.py` maps the empty
list to a JSON not-found response. -/
theorem c3_counterexample :
    scrapeWebsite c3Site exCfg noLastmod exSeed [] = some [] ∧
    (crawlRun c3Site exCfg exSeed).map (fun r => r.2.2.foundUrls) = some [] ∧
    (crawlRun c3Site exCfg exSeed).map (fun r => r.2.2.visited) = some [exSeed] := by
  refine ⟨by decide, by decide, by decide⟩

/-- C3, amended.  When the fetch of the (normalized) seed URL fails at
depth 0 — transport error or any non-200 status — `crawl` succeeds with
the empty entry sequence: the per-URL failure is recovered locally and
nothing is recorded, so every enumeration of the (empty) discovery set
yields `some []`. -/
theorem c3_amended (site : Site) (cfg : CrawlConfig) (lastmod : Str → Str)
    (seed : Str) (enum : List Str) (s b : Str) (st : ScrapeState)
    (hrun : crawlRun site cfg seed = some (s, b, st))
    (hfail : ∀ r, site s = some r → r.status ≠ 200)
    (henum : IsEnumOf enum (crawlUnion cfg st)) :
    scrapeWebsite site cfg lastmod seed enum = some [] := by
  unfold crawlRun at hrun
  cases hp : pyUrlparse (normalizeUrl seed) with
  | none => rw [hp] at hrun; simp at hrun
  | some p =>
      rw [hp] at hrun
      simp only [Option.map_some', Option.some.injEq, Prod.mk.injEq] at hrun
      obtain ⟨hs, hb, hst⟩ := hrun
      rw [hb] at hst
      have hone : scrapeRecursive site cfg b (cfg.maxDepth + 2) (normalizeUrl seed) 0
          ⟨[], [], []⟩ = ⟨[normalizeUrl seed], [], []⟩ := by
        show scrapeRecursive site cfg b (Nat.succ (cfg.maxDepth + 1)) (normalizeUrl seed) 0
          ⟨[], [], []⟩ = ⟨[normalizeUrl seed], [], []⟩
        unfold scrapeRecursive
        rw [if_neg (by simp)]
        cases hsite : site (normalizeUrl seed) with
        | none => simp [addUnique]
        | some r =>
            have h200 : r.status ≠ 200 := hfail r (hs ▸ hsite)
            dsimp only
            rw [if_pos h200]
            simp [addUnique]
      rw [hone] at hst
      have hunion : crawlUnion cfg st = [] := by
        rw [← hst]
        unfold crawlUnion
        split_ifs <;> rfl
      have henil : enum = [] := enum_of_nil enum (hunion ▸ henum)
      subst henil
      unfold scrapeWebsite crawlRun
      rw [hp]
      simp [buildEntries, sortDesc]

/-- Witness for `c3_amended`: the 404 seed scenario. -/
theorem c3_amended_witness :
    scrapeWebsite c3Site exCfg noLastmod exSeed [] = some [] :=
  c3_amended c3Site exCfg noLastmod exSeed [] exSeed (ofStr ("https://example.com"))
    ⟨[exSeed], [], []⟩ (by decide)
    (fun r h => by
      have he : c3Site exSeed = some ⟨404, ofStr ("text/html"), emptyDoc⟩ := by decide
      rw [he] at h
      injection h with h2
      rw [← h2]
      decide)
    (by decide)

/-! ## Claim C7 -/

/-- C7, counterexample.  Off-domain image references are recorded
verbatim (unnormalized) by `_resolve_url`, so two references to the same
image differing only by fragment produce two entries whose URLs
normalize to the same string: the final document contains two entries
with the same normalized URL. -/
theorem c7_counterexample :
    scrapeWebsite c7Site exCfg noLastmod exSeed
        [exSeed, ofStr ("http://other.com/a.png"), ofStr ("http://other.com/a.png#x")] =
      some [⟨exSeed, [], ofStr ("weekly"), ofStr ("1.0")⟩,
            ⟨ofStr ("http://other.com/a.png"), [], ofStr ("yearly"), ofStr ("0.4")⟩,
            ⟨ofStr ("http://other.com/a.png#x"), [], ofStr ("yearly"), ofStr ("0.4")⟩] ∧
    (crawlRun c7Site exCfg exSeed).map (fun r => crawlUnion exCfg r.2.2) =
      some [exSeed, ofStr ("http://other.com/a.png"), ofStr ("http://other.com/a.png#x")] ∧
    normalizeUrl (ofStr ("http://other.com/a.png#x")) =
      normalizeUrl (ofStr ("http://other.com/a.png")) ∧
    ofStr ("http://other.com/a.png#x") ≠ ofStr ("http://other.com/a.png") := by
  refine ⟨by decide, by decide, by decide, by decide⟩

/-- C7, amended.  Deduplication is by exact URL string, not by
normalized URL: the final entry sequence never contains two entries
with the same URL string (page URLs are stored normalized, so for pages
this coincides with normalized-URL dedup; off-domain image references
are stored unnormalized and may collide after normalization). -/
theorem c7_amended (site : Site) (cfg : CrawlConfig) (lastmod : Str → Str)
    (seed : Str) (enum : List Str) (s b : Str) (st : ScrapeState)
    (es : List SitemapEntry)
    (hrun : crawlRun site cfg seed = some (s, b, st))
    (henum : IsEnumOf enum (crawlUnion cfg st))
    (h : scrapeWebsite site cfg lastmod seed enum = some es) :
    (es.map SitemapEntry.url).Nodup := by
  obtain ⟨es0, hbe, hsorted⟩ := scrapeWebsite_eq site cfg lastmod seed enum es h
  have hurls : es0.map SitemapEntry.url = enum := buildEntries_urls lastmod _ enum es0 hbe
  have hnd : (es0.map SitemapEntry.url).Nodup := by rw [hurls]; exact henum.1
  subst hsorted
  exact ((sortDesc_perm es0).map SitemapEntry.url).nodup_iff.mpr hnd

/-- Witness for `c7_amended`: the c7 scenario itself. -/
theorem c7_amended_witness :
    (([⟨exSeed, [], ofStr ("weekly"), ofStr ("1.0")⟩,
       ⟨ofStr ("http://other.com/a.png"), [], ofStr ("yearly"), ofStr ("0.4")⟩,
       ⟨ofStr ("http://other.com/a.png#x"), [], ofStr ("yearly"), ofStr ("0.4")⟩] :
      List SitemapEntry).map SitemapEntry.url).Nodup :=
  c7_amended c7Site exCfg noLastmod exSeed
    [exSeed, ofStr ("http://other.com/a.png"), ofStr ("http://other.com/a.png#x")]
    exSeed (ofStr ("https://example.com"))
    ⟨[exSeed], [exSeed], [ofStr ("http://other.com/a.png"), ofStr ("http://other.com/a.png#x")]⟩
    _ (by decide) (by decide) (by decide)

/-! ## Claim C5 -/

/-- C5, counterexample.  The pre-sort sequence is an iteration of the
Python *set* of discovered URLs, whose order is unspecified — not the
discovery order.  Here discovery order is seed, `/a`, `/b`, yet under
the legitimate set enumeration seed, `/b`, `/a` the stable sort leaves
the two equal-priority (`0.9`) entries as `/b` before `/a`: the final
sequence does not tie-break by discovery order. -/
theorem c5_counterexample :
    scrapeWebsite c5Site exCfg noLastmod exSeed [exSeed, c5B, c5A] =
      some [⟨exSeed, [], ofStr ("weekly"), ofStr ("1.0")⟩,
            ⟨c5B, [], ofStr ("monthly"), ofStr ("0.9")⟩,
            ⟨c5A, [], ofStr ("monthly"), ofStr ("0.9")⟩] ∧
    (crawlRun c5Site exCfg exSeed).map (fun r => r.2.2.foundUrls) =
      some [exSeed, c5A, c5B] ∧
    (crawlRun c5Site exCfg exSeed).map (fun r => crawlUnion exCfg r.2.2) =
      some [exSeed, c5A, c5B] ∧
    IsEnumOf [exSeed, c5B, c5A] [exSeed, c5A, c5B] := by
  refine ⟨by decide, by decide, by decide, by decide⟩

/-- C5, amended.  The final entry sequence is sorted by non-increasing
priority — for every pair of positions the earlier entry's priority is
at least the later one's, under every enumeration of the discovery set —
and the sort is stable; but the order of equal-priority entries is the
unspecified iteration order of the Python set union, not discovery
order. -/
theorem c5_amended (site : Site) (cfg : CrawlConfig) (lastmod : Str → Str)
    (seed : Str) (enum : List Str) (es : List SitemapEntry)
    (h : scrapeWebsite site cfg lastmod seed enum = some es) :
    es.Pairwise PrioGE := by
  obtain ⟨es0, _, hsorted⟩ := scrapeWebsite_eq site cfg lastmod seed enum es h
  subst hsorted
  exact sortDesc_pairwise es0

/-- Witness for `c5_amended`: the c5 scenario run. -/
theorem c5_amended_witness :
    ([⟨exSeed, [], ofStr ("weekly"), ofStr ("1.0")⟩,
      ⟨c5B, [], ofStr ("monthly"), ofStr ("0.9")⟩,
      ⟨c5A, [], ofStr ("monthly"), ofStr ("0.9")⟩] :
      List SitemapEntry).Pairwise PrioGE :=
  c5_amended c5Site exCfg noLastmod exSeed [exSeed, c5B, c5A] _ (by decide)

/-! ## Claim C8 -/

theorem mem_addUnique (l : List Str) (u v : Str) (h : v ∈ addUnique l u) :
    v ∈ l ∨ v = u := by
  unfold addUnique at h
  split_ifs at h with hm
  · exact Or.inl h
  · rcases List.mem_append.mp h with h | h
    · exact Or.inl h
    · exact Or.inr (List.mem_singleton.mp h)

/-- Every URL recorded into `found_urls` by `_scrape_recursive` passes
`_is_same_domain`: the current URL is only recorded after being reached,
and recursion only follows links that pass the same-domain guard. -/
theorem scrapeRecursive_domain (site : Site) (cfg : CrawlConfig) (base : Str) :
    ∀ (fuel : Nat) (url : Str) (depth : Nat) (st : ScrapeState),
      isSameDomain url base = true →
      (∀ w ∈ st.foundUrls, isSameDomain w base = true) →
      ∀ v ∈ (scrapeRecursive site cfg base fuel url depth st).foundUrls,
        isSameDomain v base = true := by
  intro fuel
  induction fuel with
  | zero => intro url depth st _ hst v hv; exact hst v hv
  | succ fuel ih =>
      intro url depth st hurl hst v hv
      unfold scrapeRecursive at hv
      by_cases hg : cfg.maxDepth < depth ∨ url ∈ st.visited
      · rw [if_pos hg] at hv
        exact hst v hv
      · rw [if_neg hg] at hv
        dsimp only at hv
        cases hsite : site url with
        | none =>
            rw [hsite] at hv
            exact hst v hv
        | some resp =>
            rw [hsite] at hv
            dsimp only at hv
            by_cases h200 : resp.status ≠ 200
            · rw [if_pos h200] at hv
              exact hst v hv
            · rw [if_neg h200] at hv
              have hst2 : ∀ w ∈ addUnique st.foundUrls url, isSameDomain w base = true := by
                intro w hw
                rcases mem_addUnique _ _ _ hw with hw | rfl
                · exact hst w hw
                · exact hurl
              by_cases hct :
                  ¬ containsSub (pyLower resp.contentType) (ofStr ("text/html")) = true
              · rw [if_pos hct] at hv
                exact hst2 v hv
              · rw [if_neg hct] at hv
                have haux : ∀ (links : List Str) (st' : ScrapeState) (d : Nat),
                    (∀ w ∈ st'.foundUrls, isSameDomain w base = true) →
                    ∀ w ∈ (links.foldl (fun s link =>
                        if isSameDomain link base = true ∧ link ∉ s.visited then
                          scrapeRecursive site cfg base fuel link d s
                        else s) st').foundUrls, isSameDomain w base = true := by
                  intro links
                  induction links with
                  | nil => intro st' d hst' w hw; exact hst' w hw
                  | cons l ls ihl =>
                      intro st' d hst' w hw
                      rw [List.foldl_cons] at hw
                      by_cases hgd : isSameDomain l base = true ∧ l ∉ st'.visited
                      · rw [if_pos hgd] at hw
                        exact ihl _ d (ih l d st' hgd.1 hst') w hw
                      · rw [if_neg hgd] at hw
                        exact ihl _ d hst' w hw
                exact haux _ _ _ (by split_ifs <;> exact hst2) v hv

/-- C8.  Confirmed: for every crawl run, every URL in the page discovery
set (`found_urls`, the source of the Page entries) satisfies the code's
`_is_same_domain` check against the base domain `scheme://host` of the
normalized seed; off-domain links are never dispatched or recorded as
pages.  (Both hosts here are lower-case — the seed's host by
normalization, the entry's because it was stored normalized — so the
exact comparison agrees with a case-insensitive one.) -/
theorem c8_page_entries_same_domain (site : Site) (cfg : CrawlConfig) (seed s b : Str)
    (st : ScrapeState) (hrun : crawlRun site cfg seed = some (s, b, st)) :
    ∀ u ∈ st.foundUrls, isSameDomain u b = true := by
  unfold crawlRun at hrun
  cases hp : pyUrlparse (normalizeUrl seed) with
  | none => rw [hp] at hrun; simp at hrun
  | some p =>
      rw [hp] at hrun
      simp only [Option.map_some', Option.some.injEq, Prod.mk.injEq] at hrun
      obtain ⟨hs, hb, hst⟩ := hrun
      rw [hb] at hst
      have hseed : isSameDomain (normalizeUrl seed) b = true := by
        unfold isSameDomain
        rw [hp]
        simp [hb]
      subst hst
      exact scrapeRecursive_domain site cfg b _ _ _ _ hseed
        (fun w hw => absurd hw (List.not_mem_nil w))

/-- Witness for `c8_page_entries_same_domain`: the section-8 scenario
run, at its recorded page `https://example.com/about/`. -/
theorem c8_witness :
    isSameDomain (ofStr ("https://example.com/about/")) (ofStr ("https://example.com")) =
      true :=
  c8_page_entries_same_domain c1Site exCfg exSeed exSeed (ofStr ("https://example.com"))
    ⟨[exSeed, ofStr ("https://example.com/about/")],
     [exSeed, ofStr ("https://example.com/about/")], []⟩
    (by decide) (ofStr ("https://example.com/about/")) (by decide)

/-! ## Claim C10 -/

theorem mkEntry_spec (lm : Str → Str) (startUrl u : Str) (e : SitemapEntry)
    (h : mkEntry lm startUrl u = some e) :
    e.url = u ∧ determineChangeFrequency u = some e.changefreq ∧
      calculatePriority u startUrl = some e.priority := by
  unfold mkEntry at h
  cases h1 : determineChangeFrequency u with
  | none => rw [h1] at h; simp at h
  | some cf =>
      rw [h1] at h
      cases h2 : calculatePriority u startUrl with
      | none => rw [h2] at h; simp at h
      | some pr =>
          rw [h2] at h
          simp only [Option.some_bind, Option.bind_eq_bind, Option.pure_def,
            Option.some.injEq] at h
          subst h
          exact ⟨rfl, rfl, rfl⟩

/-- Every entry of a successful run carries exactly the metadata the two
pure scoring functions assign to its URL (and, for priority, the
normalized seed). -/
theorem entry_metadata (site : Site) (cfg : CrawlConfig) (lm : Str → Str)
    (seed : Str) (enum : List Str) (es : List SitemapEntry) (e : SitemapEntry)
    (h : scrapeWebsite site cfg lm seed enum = some es) (he : e ∈ es) :
    determineChangeFrequency e.url = some e.changefreq ∧
      calculatePriority e.url (normalizeUrl seed) = some e.priority := by
  obtain ⟨es0, hbe, rfl⟩ := scrapeWebsite_eq site cfg lm seed enum es h
  have he0 : e ∈ es0 := (sortDesc_perm es0).mem_iff.mp he
  obtain ⟨u, _, hmk⟩ := buildEntries_mem lm _ enum es0 e hbe he0
  obtain ⟨hurl, hcf, hpr⟩ := mkEntry_spec lm _ u e hmk
  rw [hurl]
  exact ⟨hcf, hpr⟩

/-- C10.  Confirmed: `changefreq` and `priority` are pure functions of
the entry's URL string (and, for priority, the normalized seed).  Two
runs — over different sites, depths, image settings, discovery orders
and set enumerations — that share a seed assign identical changefreq
and priority to any common URL; the entries carry no page/image kind
tag for the metadata to depend on. -/
theorem c10_metadata_pure (site₁ site₂ : Site) (cfg₁ cfg₂ : CrawlConfig)
    (lm₁ lm₂ : Str → Str) (seed : Str) (enum₁ enum₂ : List Str)
    (es₁ es₂ : List SitemapEntry) (e₁ e₂ : SitemapEntry)
    (h₁ : scrapeWebsite site₁ cfg₁ lm₁ seed enum₁ = some es₁)
    (h₂ : scrapeWebsite site₂ cfg₂ lm₂ seed enum₂ = some es₂)
    (he₁ : e₁ ∈ es₁) (he₂ : e₂ ∈ es₂) (hu : e₁.url = e₂.url) :
    e₁.changefreq = e₂.changefreq ∧ e₁.priority = e₂.priority := by
  obtain ⟨hcf₁, hpr₁⟩ := entry_metadata site₁ cfg₁ lm₁ seed enum₁ es₁ e₁ h₁ he₁
  obtain ⟨hcf₂, hpr₂⟩ := entry_metadata site₂ cfg₂ lm₂ seed enum₂ es₂ e₂ h₂ he₂
  rw [hu] at hcf₁ hpr₁
  exact ⟨Option.some.inj (hcf₁.symm.trans hcf₂), Option.some.inj (hpr₁.symm.trans hpr₂)⟩

/-- Witness for `c10_metadata_pure`: the seed entry of two different
runs (the section-8 link scenario and the two-page scenario). -/
theorem c10_metadata_pure_witness :
    (⟨exSeed, [], ofStr ("weekly"), ofStr ("1.0")⟩ : SitemapEntry).changefreq =
        (⟨exSeed, [], ofStr ("weekly"), ofStr ("1.0")⟩ : SitemapEntry).changefreq ∧
      (⟨exSeed, [], ofStr ("weekly"), ofStr ("1.0")⟩ : SitemapEntry).priority =
        (⟨exSeed, [], ofStr ("weekly"), ofStr ("1.0")⟩ : SitemapEntry).priority :=
  c10_metadata_pure c1Site c5Site exCfg exCfg noLastmod noLastmod exSeed
    [exSeed, ofStr ("https://example.com/about/")] [exSeed, c5B, c5A]
    [⟨exSeed, [], ofStr ("weekly"), ofStr ("1.0")⟩,
     ⟨ofStr ("https://example.com/about/"), [], ofStr ("monthly"), ofStr ("0.8")⟩]
    [⟨exSeed, [], ofStr ("weekly"), ofStr ("1.0")⟩,
     ⟨c5B, [], ofStr ("monthly"), ofStr ("0.9")⟩,
     ⟨c5A, [], ofStr ("monthly"), ofStr ("0.9")⟩]
    ⟨exSeed, [], ofStr ("weekly"), ofStr ("1.0")⟩
    ⟨exSeed, [], ofStr ("weekly"), ofStr ("1.0")⟩
    (by decide) (by decide) (by decide) (by decide) rfl

/-! ## Claim C2 -/

set_option maxRecDepth 1000000 in
/-- C2.  The code double-escapes `loc`: `_create_url_element` stores
`_escape_xml(url)` as the element text, and `ET.tostring` escapes the
text again, so a URL containing `&` serializes with `&amp;amp;` inside
`loc` — not the claimed single `&amp;` — and XML-parsing the document
back (one un-escape) yields `https://example.com/?a=1&amp;b=2`, which
is not the original URL. -/
theorem c2_double_escape :
    containsSub (generateSitemap [c2Entry]) (ofStr ("&amp;amp;")) = true ∧
    sitemapLocTexts (generateSitemap [c2Entry]) =
      some [ofStr ("https://example.com/?a=1&amp;b=2")] ∧
    escapeXml c2Entry.url = ofStr ("https://example.com/?a=1&amp;b=2") ∧
    ofStr ("https://example.com/?a=1&amp;b=2") ≠ c2Entry.url := by
  refine ⟨by decide, by decide, by decide, by decide⟩

/-! ## Claim C9: parser-side lemmas -/

theorem escCdata_cons (c : Char) (t : Str) :
    escCdata (c :: t) = escCdataChar c ++ escCdata t := rfl

theorem length_le_escCdata (t : Str) : t.length ≤ (escCdata t).length := by
  induction t with
  | nil => simp [escCdata]
  | cons c t ih =>
      rw [escCdata_cons, List.length_append, List.length_cons]
      have h1 : 1 ≤ (escCdataChar c).length := by
        unfold escCdataChar
        split_ifs <;> first | decide | simp
      omega

theorem not_eq_true_of_false {b : Bool} (h : b = false) : ¬ (b = true) := by
  simp [h]

theorem parseEntity_amp (X : Str) :
    parseEntity (ofStr ("amp;") ++ X) = some ('&', X) := by
  unfold parseEntity
  rw [if_pos (show startsWith (ofStr ("amp;") ++ X) (ofStr ("amp;")) = true from rfl)]
  rfl

theorem parseEntity_lt (X : Str) :
    parseEntity (ofStr ("lt;") ++ X) = some ('<', X) := by
  unfold parseEntity
  rw [if_neg (not_eq_true_of_false
        (show startsWith (ofStr ("lt;") ++ X) (ofStr ("amp;")) = false from rfl)),
    if_pos (show startsWith (ofStr ("lt;") ++ X) (ofStr ("lt;")) = true from rfl)]
  rfl

theorem parseEntity_gt (X : Str) :
    parseEntity (ofStr ("gt;") ++ X) = some ('>', X) := by
  unfold parseEntity
  rw [if_neg (not_eq_true_of_false
        (show startsWith (ofStr ("gt;") ++ X) (ofStr ("amp;")) = false from rfl)),
    if_neg (not_eq_true_of_false
        (show startsWith (ofStr ("gt;") ++ X) (ofStr ("lt;")) = false from rfl)),
    if_pos (show startsWith (ofStr ("gt;") ++ X) (ofStr ("gt;")) = true from rfl)]
  rfl

/-- Character data built by `_escape_cdata` parses back to the original
text, stopping at the following `<`. -/
theorem parseTextF_escCdata (t : Str) :
    ∀ (f : Nat) (rest : Str), t.length < f → t.all isXmlChar = true →
      parseTextF f (escCdata t ++ '<' :: rest) = some (t, '<' :: rest) := by
  induction t with
  | nil =>
      intro f rest hf _
      cases f with
      | zero => omega
      | succ f =>
          show parseTextF (Nat.succ f) ('<' :: rest) = some ([], '<' :: rest)
          unfold parseTextF
          rw [if_pos rfl]
  | cons c t ih =>
      intro f rest hf hall
      obtain ⟨hxc, hxt⟩ : isXmlChar c = true ∧ t.all isXmlChar = true := by
        simpa only [List.all_cons, Bool.and_eq_true] using hall
      cases f with
      | zero => omega
      | succ f =>
          have hrec := ih f rest (by simp at hf; omega) hxt
          rw [escCdata_cons]
          by_cases hamp : c = '&'
          · subst hamp
            rw [show escCdataChar '&' = '&' :: ofStr ("amp;") from rfl]
            rw [show ('&' :: ofStr ("amp;") ++ escCdata t) ++ '<' :: rest =
              '&' :: (ofStr ("amp;") ++ (escCdata t ++ '<' :: rest)) from by simp]
            unfold parseTextF
            rw [if_neg (show ¬ (('&' : Char) = '<') from by decide),
              if_pos (show ('&' : Char) = '&' from rfl), parseEntity_amp]
            dsimp only
            rw [hrec]
          · by_cases hlt : c = '<'
            · subst hlt
              rw [show escCdataChar '<' = '&' :: ofStr ("lt;") from rfl]
              rw [show ('&' :: ofStr ("lt;") ++ escCdata t) ++ '<' :: rest =
                '&' :: (ofStr ("lt;") ++ (escCdata t ++ '<' :: rest)) from by simp]
              unfold parseTextF
              rw [if_neg (show ¬ (('&' : Char) = '<') from by decide),
                if_pos (show ('&' : Char) = '&' from rfl), parseEntity_lt]
              dsimp only
              rw [hrec]
            · by_cases hgt : c = '>'
              · subst hgt
                rw [show escCdataChar '>' = '&' :: ofStr ("gt;") from rfl]
                rw [show ('&' :: ofStr ("gt;") ++ escCdata t) ++ '<' :: rest =
                  '&' :: (ofStr ("gt;") ++ (escCdata t ++ '<' :: rest)) from by simp]
                unfold parseTextF
                rw [if_neg (show ¬ (('&' : Char) = '<') from by decide),
                  if_pos (show ('&' : Char) = '&' from rfl), parseEntity_gt]
                dsimp only
                rw [hrec]
              · rw [show escCdataChar c = [c] from by
                  unfold escCdataChar
                  rw [if_neg hamp, if_neg hlt, if_neg hgt]]
                rw [show ([c] ++ escCdata t) ++ '<' :: rest =
                  c :: (escCdata t ++ '<' :: rest) from by simp]
                unfold parseTextF
                rw [if_neg hlt, if_neg hamp, if_pos hxc, hrec]

/-- A quote-free, `<`-free, `&`-free attribute value parses back
verbatim up to the closing quote. -/
theorem parseAttrValueF_plain (v : Str) :
    ∀ (f : Nat) (q : Char) (rest : Str), v.length < f →
      v.all (fun c => ¬ (c = q ∨ c = '<' ∨ c = '&')) = true →
      v.all isXmlChar = true →
      parseAttrValueF f q (v ++ q :: rest) = some (v, rest) := by
  induction v with
  | nil =>
      intro f q rest hf _ _
      cases f with
      | zero => omega
      | succ f =>
          show parseAttrValueF (Nat.succ f) q (q :: rest) = some ([], rest)
          unfold parseAttrValueF
          rw [if_pos rfl]
  | cons c v ih =>
      intro f q rest hf hall hxall
      simp only [List.all_cons, Bool.and_eq_true] at hall
      obtain ⟨hc, hv⟩ := hall
      obtain ⟨hxc, hxv⟩ : isXmlChar c = true ∧ v.all isXmlChar = true := by
        simpa only [List.all_cons, Bool.and_eq_true] using hxall
      simp only [decide_eq_true_eq] at hc
      push_neg at hc
      obtain ⟨hcq, hclt, hcamp⟩ := hc
      cases f with
      | zero => omega
      | succ f =>
          show parseAttrValueF (Nat.succ f) q (c :: (v ++ q :: rest)) = _
          unfold parseAttrValueF
          rw [if_neg hcq, if_neg hclt, if_neg hcamp, if_pos hxc,
            ih f q rest (by simp at hf; omega) hv hxv]

theorem dropWhile_cons_false (c : Char) (t : Str) (h : isPySpace c = false) :
    (c :: t).dropWhile isPySpace = c :: t := by
  rw [List.dropWhile_cons, if_neg (not_eq_true_of_false h)]

theorem takeWhile_append_stop (p : Char → Bool) (l : Str) (c : Char) (r : Str)
    (hl : l.all p = true) (hc : p c = false) :
    (l ++ c :: r).takeWhile p = l := by
  induction l with
  | nil => simp [List.takeWhile_cons, hc]
  | cons a t ih =>
      simp only [List.all_cons, Bool.and_eq_true] at hl
      simp [List.takeWhile_cons, hl.1, ih hl.2]

/-- `parseAttrsF` stops at `/` or `>` after skipping spaces. -/
theorem parseAttrsF_stop (f : Nat) (s : Str) (c : Char) (rest : Str)
    (hd : s.dropWhile isPySpace = c :: rest) (hc : c = '/' ∨ c = '>') :
    parseAttrsF (f + 1) s = some ([], c :: rest) := by
  show parseAttrsF (Nat.succ f) s = some ([], c :: rest)
  unfold parseAttrsF
  rw [hd]
  dsimp only
  rw [if_pos hc]

/-- The root's single `xmlns` attribute parses back. -/
theorem parseAttrsF_xmlns (f : Nat) (rest : Str) :
    parseAttrsF (f + 2)
      (' ' :: (ofStr ("xmlns") ++ '=' :: '"' :: (sitemapNs ++ '"' :: '>' :: rest))) =
      some ([(ofStr ("xmlns"), sitemapNs)], '>' :: rest) := by
  show parseAttrsF (Nat.succ (f + 1)) _ = _
  unfold parseAttrsF
  rw [show (' ' :: (ofStr ("xmlns") ++ '=' :: '"' :: (sitemapNs ++ '"' :: '>' :: rest))).dropWhile
        isPySpace = 'x' :: (ofStr ("mlns") ++ '=' :: '"' :: (sitemapNs ++ '"' :: '>' :: rest))
      from by
        rw [List.dropWhile_cons, if_pos (show isPySpace ' ' = true from by decide)]
        exact dropWhile_cons_false 'x' _ (by decide)]
  dsimp only
  rw [if_neg (show ¬ (('x' : Char) = '/' ∨ ('x' : Char) = '>') from by decide)]
  rw [show ('x' :: (ofStr ("mlns") ++ '=' :: '"' :: (sitemapNs ++ '"' :: '>' :: rest))) =
      ofStr ("xmlns") ++ '=' :: ('"' :: (sitemapNs ++ '"' :: '>' :: rest)) from rfl]
  rw [takeWhile_append_stop isNameChar (ofStr ("xmlns")) '='
      ('"' :: (sitemapNs ++ '"' :: '>' :: rest)) (by decide) (by decide)]
  rw [if_neg (show ¬ (ofStr ("xmlns") = []) from by decide)]
  rw [show (ofStr ("xmlns") ++ '=' :: ('"' :: (sitemapNs ++ '"' :: '>' :: rest))).drop
        (ofStr ("xmlns")).length = '=' :: ('"' :: (sitemapNs ++ '"' :: '>' :: rest))
      from List.drop_left _ _]
  rw [show ('=' :: ('"' :: (sitemapNs ++ '"' :: '>' :: rest))).dropWhile isPySpace =
      '=' :: ('"' :: (sitemapNs ++ '"' :: '>' :: rest)) from dropWhile_cons_false '=' _ (by decide)]
  dsimp only
  rw [if_neg (show ¬ ¬ (('=' : Char) = '=') from by decide)]
  rw [show ('"' :: (sitemapNs ++ '"' :: '>' :: rest)).dropWhile isPySpace =
      '"' :: (sitemapNs ++ '"' :: '>' :: rest) from dropWhile_cons_false '"' _ (by decide)]
  dsimp only
  rw [if_pos (show ('"' : Char) = '"' ∨ ('"' : Char) = '\'' from by decide)]
  rw [parseAttrValueF_plain sitemapNs _ '"' ('>' :: rest)
      (by simp [List.length_append]; omega) (by decide) (by decide)]
  dsimp only
  rw [parseAttrsF_stop f ('>' :: rest) '>' rest (dropWhile_cons_false '>' rest (by decide))
    (Or.inr rfl)]

/-- A serialized childless element with empty text (`<tag />`). -/
theorem parseElemF_leaf_short (f : Nat) (ns tag rest : Str)
    (htag : goodTag tag = true) :
    parseElemF (f + 2) ns ('<' :: (tag ++ ' ' :: '/' :: '>' :: rest)) =
      some (.mk (qualifyTag ns tag) [] [], rest) := by
  obtain ⟨htne, hall⟩ : tag ≠ [] ∧ tag.all isNameChar = true := by
    unfold goodTag at htag
    simpa using htag
  show parseElemF (Nat.succ (f + 1)) ns _ = _
  unfold parseElemF
  dsimp only
  rw [if_neg (show ¬ ¬ (('<' : Char) = '<') from by decide)]
  rw [show (tag ++ ' ' :: '/' :: '>' :: rest) = tag ++ ' ' :: ('/' :: '>' :: rest) from rfl]
  rw [takeWhile_append_stop isNameChar tag ' ' ('/' :: '>' :: rest) hall (by decide)]
  rw [if_neg htne]
  rw [show (tag ++ ' ' :: ('/' :: '>' :: rest)).drop tag.length = ' ' :: ('/' :: '>' :: rest)
      from List.drop_left _ _]
  rw [parseAttrsF_stop ((tag ++ ' ' :: ('/' :: '>' :: rest)).length) (' ' :: ('/' :: '>' :: rest))
      '/' ('>' :: rest)
      (by
        rw [List.dropWhile_cons, if_pos (show isPySpace ' ' = true from by decide)]
        exact dropWhile_cons_false '/' _ (by decide))
      (Or.inl rfl)]
  dsimp only
  rw [if_pos (show ('/' : Char) = '/' from rfl), if_pos (show ('>' : Char) = '>' from rfl)]
  rfl

/-- Content consisting of character data only, ending at a close tag. -/
theorem parseContentF_done (f : Nat) (ns text s2 : Str)
    (htv : text.all isXmlChar = true) :
    parseContentF (f + 1) ns (escCdata text ++ '<' :: ('/' :: s2)) =
      some (text, [], s2) := by
  show parseContentF (Nat.succ f) ns _ = _
  unfold parseContentF
  rw [parseTextF_escCdata text ((escCdata text ++ '<' :: ('/' :: s2)).length + 1) ('/' :: s2)
      (by have := length_le_escCdata text; simp [List.length_append]; omega) htv]
  dsimp only
  rw [if_pos (show ('<' : Char) = '<' ∧ ('/' : Char) = '/' from ⟨rfl, rfl⟩)]

/-- A serialized childless element with non-empty text. -/
theorem parseElemF_leaf_text (f : Nat) (ns tag text rest : Str)
    (htag : goodTag tag = true) (htv : text.all isXmlChar = true) :
    parseElemF (f + 2) ns
      ('<' :: (tag ++ '>' :: (escCdata text ++ '<' :: ('/' :: (tag ++ '>' :: rest))))) =
      some (.mk (qualifyTag ns tag) text [], rest) := by
  obtain ⟨htne, hall⟩ : tag ≠ [] ∧ tag.all isNameChar = true := by
    unfold goodTag at htag
    simpa using htag
  show parseElemF (Nat.succ (f + 1)) ns _ = _
  unfold parseElemF
  dsimp only
  rw [if_neg (show ¬ ¬ (('<' : Char) = '<') from by decide)]
  rw [takeWhile_append_stop isNameChar tag '>' (escCdata text ++ '<' :: ('/' :: (tag ++ '>' :: rest)))
      hall (by decide)]
  rw [if_neg htne]
  rw [show (tag ++ '>' :: (escCdata text ++ '<' :: ('/' :: (tag ++ '>' :: rest)))).drop tag.length =
      '>' :: (escCdata text ++ '<' :: ('/' :: (tag ++ '>' :: rest))) from List.drop_left _ _]
  rw [parseAttrsF_stop ((tag ++ '>' :: (escCdata text ++ '<' :: ('/' :: (tag ++ '>' :: rest)))).length)
      ('>' :: (escCdata text ++ '<' :: ('/' :: (tag ++ '>' :: rest))))
      '>' (escCdata text ++ '<' :: ('/' :: (tag ++ '>' :: rest)))
      (dropWhile_cons_false '>' _ (by decide)) (Or.inr rfl)]
  dsimp only
  rw [if_neg (show ¬ (('>' : Char) = '/') from by decide),
    if_pos (show ('>' : Char) = '>' from rfl)]
  rw [parseContentF_done f _ text (tag ++ '>' :: rest) htv]
  dsimp only
  rw [takeWhile_append_stop isNameChar tag '>' rest hall (by decide)]
  rw [if_neg (show ¬ (tag ≠ tag) from fun h => h rfl)]
  rw [show (tag ++ '>' :: rest).drop tag.length = '>' :: rest from List.drop_left _ _]
  rw [show ('>' :: rest).dropWhile isPySpace = '>' :: rest
      from dropWhile_cons_false '>' rest (by decide)]
  dsimp only
  rw [if_pos (show ('>' : Char) = '>' from rfl)]
  rfl

/-- Indentation touches only the tail of a leaf, which the parse model
discards. -/
theorem resolveLeaf_indentLeaf (ns : Str) (k : Nat) (l : XmlLeaf) :
    resolveLeaf ns (indentLeaf k l) = resolveLeaf ns l := by
  unfold indentLeaf
  split_ifs with h
  · rfl
  · rfl

theorem map_resolveLeaf_fixLastLeaf (ns ind : Str) (ls : List XmlLeaf) :
    (fixLastLeaf ind ls).map (resolveLeaf ns) = ls.map (resolveLeaf ns) := by
  induction ls with
  | nil => rfl
  | cons l rest ih =>
      cases rest with
      | nil =>
          unfold fixLastLeaf
          split_ifs with h
          · rfl
          · rfl
      | cons l2 rest2 =>
          show ((l :: fixLastLeaf ind (l2 :: rest2)).map (resolveLeaf ns)) = _
          simp only [List.map_cons]
          rw [show (fixLastLeaf ind (l2 :: rest2)).map (resolveLeaf ns) =
              (l2 :: rest2).map (resolveLeaf ns) from ih]
          rfl

theorem goodTag_indentLeaf (k : Nat) (l : XmlLeaf) :
    (indentLeaf k l).tag = l.tag := by
  unfold indentLeaf
  split_ifs with h
  · rfl
  · rfl

theorem mem_fixLastLeaf_tag (ind : Str) (ls : List XmlLeaf) :
    ∀ l ∈ fixLastLeaf ind ls, ∃ l0 ∈ ls, l.tag = l0.tag := by
  induction ls with
  | nil => intro l h; cases h
  | cons a rest ih =>
      cases rest with
      | nil =>
          intro l h
          unfold fixLastLeaf at h
          refine ⟨a, List.mem_cons_self a [], ?_⟩
          rcases List.mem_cons.mp h with rfl | h2
          · split_ifs
            · rfl
            · rfl
          · cases h2
      | cons a2 rest2 =>
          intro l h
          rcases List.mem_cons.mp h with rfl | h2
          · exact ⟨l, List.mem_cons_self l _, rfl⟩
          · obtain ⟨l0, hl0, he⟩ := ih l h2
            exact ⟨l0, List.mem_cons_of_mem a hl0, he⟩

/-- Serialized leaves (with their tails) parse back as the children of a
content region, the leading character data being the element text. -/
theorem parseContentF_leaves (ls : List XmlLeaf)
    (hgood : ∀ l ∈ ls, goodTag l.tag = true ∧ l.text.all isXmlChar = true ∧
      l.tail.all isXmlChar = true) :
    ∀ (f : Nat) (ns pre rest : Str), pre.all isXmlChar = true →
      parseContentF (2 * ls.length + 1 + f) ns
        (escCdata pre ++ (serialLeaves ls ++ '<' :: ('/' :: rest))) =
      some (pre, ls.map (resolveLeaf ns), rest) := by
  induction ls with
  | nil =>
      intro f ns pre rest hpre
      rw [show serialLeaves [] = ([] : Str) from rfl, List.nil_append]
      rw [show 2 * List.length ([] : List XmlLeaf) + 1 + f = f + 1 from by
        simp only [List.length_nil]; omega]
      exact parseContentF_done f ns pre rest hpre
  | cons l tl ih =>
      intro f ns pre rest hpre
      obtain ⟨⟨hlg, hltv, hltlv⟩, htlg⟩ :
          (goodTag l.tag = true ∧ l.text.all isXmlChar = true ∧
            l.tail.all isXmlChar = true) ∧
          ∀ x ∈ tl, goodTag x.tag = true ∧ x.text.all isXmlChar = true ∧
            x.tail.all isXmlChar = true := by
        refine ⟨hgood l (List.mem_cons_self l tl), fun x hx => hgood x (List.mem_cons_of_mem l hx)⟩
      obtain ⟨hne, hall⟩ : l.tag ≠ [] ∧ l.tag.all isNameChar = true := by
        unfold goodTag at hlg
        simpa using hlg
      obtain ⟨c2, t2, htag2⟩ := List.exists_cons_of_ne_nil hne
      have hc2 : isNameChar c2 = true := by
        have h2 := hall
        rw [htag2] at h2
        simp only [List.all_cons, Bool.and_eq_true] at h2
        exact h2.1
      have hc2slash : ¬ (c2 = '/') := by
        intro he
        rw [he] at hc2
        exact absurd hc2 (by decide)
      have hshape : escCdata pre ++ (serialLeaves (l :: tl) ++ '<' :: ('/' :: rest)) =
          escCdata pre ++ '<' :: (c2 :: (t2 ++
            ((if l.text = [] then ofStr (" />")
              else '>' :: escCdata l.text ++ ofStr ("</") ++ l.tag ++ ['>']) ++
             (escCdata l.tail ++ (serialLeaves tl ++ '<' :: ('/' :: rest)))))) := by
        rw [show serialLeaves (l :: tl) = serializeLeaf l ++ serialLeaves tl from rfl]
        unfold serializeLeaf
        rw [htag2]
        simp [List.append_assoc, List.cons_append]
      rw [hshape]
      rw [show 2 * (l :: tl).length + 1 + f = Nat.succ (2 * tl.length + 2 + f) from by
        simp [List.length_cons]; omega]
      unfold parseContentF
      rw [parseTextF_escCdata pre _ _
        (by have := length_le_escCdata pre; simp [List.length_append]; omega) hpre]
      dsimp only
      rw [if_neg (show ¬ (('<' : Char) = '<' ∧ c2 = '/') from fun h => hc2slash h.2)]
      rw [if_pos (show ('<' : Char) = '<' from rfl)]
      have helem : parseElemF (2 * tl.length + 2 + f) ns
          ('<' :: (c2 :: (t2 ++
            ((if l.text = [] then ofStr (" />")
              else '>' :: escCdata l.text ++ ofStr ("</") ++ l.tag ++ ['>']) ++
             (escCdata l.tail ++ (serialLeaves tl ++ '<' :: ('/' :: rest))))))) =
          some (.mk (qualifyTag ns l.tag) l.text [],
            escCdata l.tail ++ (serialLeaves tl ++ '<' :: ('/' :: rest))) := by
        by_cases htext : l.text = []
        · rw [if_pos htext]
          rw [show ofStr (" />") ++ (escCdata l.tail ++ (serialLeaves tl ++ '<' :: ('/' :: rest))) =
              ' ' :: '/' :: '>' :: (escCdata l.tail ++ (serialLeaves tl ++ '<' :: ('/' :: rest)))
            from rfl]
          rw [show (2 * tl.length + 2 + f) = (2 * tl.length + f) + 2 from by omega]
          rw [show ('<' :: (c2 :: (t2 ++ ' ' :: '/' :: '>' ::
              (escCdata l.tail ++ (serialLeaves tl ++ '<' :: ('/' :: rest)))))) =
            ('<' :: (l.tag ++ ' ' :: '/' :: '>' ::
              (escCdata l.tail ++ (serialLeaves tl ++ '<' :: ('/' :: rest))))) from by rw [htag2]; rfl]
          rw [parseElemF_leaf_short (2 * tl.length + f) ns l.tag _ hlg, htext]
        · rw [if_neg htext]
          rw [show ('>' :: escCdata l.text ++ ofStr ("</") ++ l.tag ++ ['>']) ++
                (escCdata l.tail ++ (serialLeaves tl ++ '<' :: ('/' :: rest))) =
              '>' :: (escCdata l.text ++ '<' :: ('/' :: (l.tag ++ '>' ::
                (escCdata l.tail ++ (serialLeaves tl ++ '<' :: ('/' :: rest)))))) from by
            simp [List.append_assoc, List.cons_append]
            rfl]
          rw [show (2 * tl.length + 2 + f) = (2 * tl.length + f) + 2 from by omega]
          rw [show ('<' :: (c2 :: (t2 ++ '>' :: (escCdata l.text ++ '<' :: ('/' :: (l.tag ++ '>' ::
              (escCdata l.tail ++ (serialLeaves tl ++ '<' :: ('/' :: rest))))))))) =
            ('<' :: (l.tag ++ '>' :: (escCdata l.text ++ '<' :: ('/' :: (l.tag ++ '>' ::
              (escCdata l.tail ++ (serialLeaves tl ++ '<' :: ('/' :: rest)))))))) from by
            rw [htag2]; rfl]
          rw [parseElemF_leaf_text (2 * tl.length + f) ns l.tag l.text _ hlg hltv]
      rw [helem]
      dsimp only
      rw [show (2 * tl.length + 2 + f) = 2 * tl.length + 1 + (f + 1) from by omega]
      rw [ih htlg (f + 1) ns l.tail rest hltlv]
      rfl

/-- A serialized `url` element (non-empty text after indentation) parses
back to its `resolveNode` image, leaving its tail in the remainder. -/
theorem parseElemF_node (f : Nat) (ns : Str) (n : XmlNode) (X : Str)
    (htag : goodTag n.tag = true)
    (hgood : ∀ l ∈ n.children, goodTag l.tag = true ∧ l.text.all isXmlChar = true ∧
      l.tail.all isXmlChar = true)
    (htext : n.text ≠ []) (htv : n.text.all isXmlChar = true) :
    parseElemF (2 * n.children.length + 4 + f) ns (serializeNode n ++ X) =
      some (resolveNode ns n, escCdata n.tail ++ X) := by
  obtain ⟨hne, hall⟩ : n.tag ≠ [] ∧ n.tag.all isNameChar = true := by
    unfold goodTag at htag
    simpa using htag
  have hshape : serializeNode n ++ X =
      '<' :: (n.tag ++ '>' :: (escCdata n.text ++ (serialLeaves n.children ++
        '<' :: ('/' :: (n.tag ++ '>' :: (escCdata n.tail ++ X)))))) := by
    unfold serializeNode
    rw [if_neg (show ¬ (n.text = [] ∧ n.children = []) from fun h => htext h.1)]
    simp [List.append_assoc, List.cons_append]
    rfl
  rw [hshape]
  rw [show 2 * n.children.length + 4 + f = Nat.succ (2 * n.children.length + 3 + f) from by omega]
  unfold parseElemF
  dsimp only
  rw [if_neg (show ¬ ¬ (('<' : Char) = '<') from by decide)]
  rw [takeWhile_append_stop isNameChar n.tag '>'
      (escCdata n.text ++ (serialLeaves n.children ++
        '<' :: ('/' :: (n.tag ++ '>' :: (escCdata n.tail ++ X))))) hall (by decide)]
  rw [if_neg hne]
  rw [show (n.tag ++ '>' :: (escCdata n.text ++ (serialLeaves n.children ++
        '<' :: ('/' :: (n.tag ++ '>' :: (escCdata n.tail ++ X)))))).drop n.tag.length =
      '>' :: (escCdata n.text ++ (serialLeaves n.children ++
        '<' :: ('/' :: (n.tag ++ '>' :: (escCdata n.tail ++ X))))) from List.drop_left _ _]
  rw [parseAttrsF_stop ((n.tag ++ '>' :: (escCdata n.text ++ (serialLeaves n.children ++
        '<' :: ('/' :: (n.tag ++ '>' :: (escCdata n.tail ++ X)))))).length)
      ('>' :: (escCdata n.text ++ (serialLeaves n.children ++
        '<' :: ('/' :: (n.tag ++ '>' :: (escCdata n.tail ++ X))))))
      '>' (escCdata n.text ++ (serialLeaves n.children ++
        '<' :: ('/' :: (n.tag ++ '>' :: (escCdata n.tail ++ X)))))
      (dropWhile_cons_false '>' _ (by decide)) (Or.inr rfl)]
  dsimp only
  rw [if_neg (show ¬ (('>' : Char) = '/') from by decide),
    if_pos (show ('>' : Char) = '>' from rfl)]
  rw [show (2 * n.children.length + 3 + f) = 2 * n.children.length + 1 + (f + 2) from by omega]
  rw [parseContentF_leaves n.children hgood (f + 2) _ n.text
      (n.tag ++ '>' :: (escCdata n.tail ++ X)) htv]
  dsimp only
  rw [takeWhile_append_stop isNameChar n.tag '>' (escCdata n.tail ++ X) hall (by decide)]
  rw [if_neg (show ¬ (n.tag ≠ n.tag) from fun h => h rfl)]
  rw [show (n.tag ++ '>' :: (escCdata n.tail ++ X)).drop n.tag.length =
      '>' :: (escCdata n.tail ++ X) from List.drop_left _ _]
  rw [show ('>' :: (escCdata n.tail ++ X)).dropWhile isPySpace = '>' :: (escCdata n.tail ++ X)
      from dropWhile_cons_false '>' _ (by decide)]
  dsimp only
  rw [if_pos (show ('>' : Char) = '>' from rfl)]
  rfl

/-- Serialized `url` elements parse back as the children of the root's
content region. -/
theorem parseContentF_nodes (nodes : List XmlNode)
    (hgood : ∀ n ∈ nodes, goodTag n.tag = true ∧
      (∀ l ∈ n.children, goodTag l.tag = true ∧ l.text.all isXmlChar = true ∧
        l.tail.all isXmlChar = true) ∧
      n.text ≠ [] ∧ n.text.all isXmlChar = true ∧ n.tail.all isXmlChar = true ∧
      n.children.length ≤ 4) :
    ∀ (f : Nat) (ns pre rest : Str), pre.all isXmlChar = true →
      parseContentF (12 * nodes.length + 1 + f) ns
        (escCdata pre ++ (serialNodes nodes ++ '<' :: ('/' :: rest))) =
      some (pre, nodes.map (resolveNode ns), rest) := by
  induction nodes with
  | nil =>
      intro f ns pre rest hpre
      rw [show serialNodes [] = ([] : Str) from rfl, List.nil_append]
      rw [show 12 * List.length ([] : List XmlNode) + 1 + f = f + 1 from by
        simp only [List.length_nil]; omega]
      exact parseContentF_done f ns pre rest hpre
  | cons n tl ih =>
      intro f ns pre rest hpre
      obtain ⟨⟨hng, hlg, hnt, hntv, hntlv, hlen⟩, htlg⟩ :
          (goodTag n.tag = true ∧
            (∀ l ∈ n.children, goodTag l.tag = true ∧ l.text.all isXmlChar = true ∧
              l.tail.all isXmlChar = true) ∧
            n.text ≠ [] ∧ n.text.all isXmlChar = true ∧ n.tail.all isXmlChar = true ∧
            n.children.length ≤ 4) ∧
          ∀ x ∈ tl, goodTag x.tag = true ∧
            (∀ l ∈ x.children, goodTag l.tag = true ∧ l.text.all isXmlChar = true ∧
              l.tail.all isXmlChar = true) ∧
            x.text ≠ [] ∧ x.text.all isXmlChar = true ∧ x.tail.all isXmlChar = true ∧
            x.children.length ≤ 4 := by
        refine ⟨hgood n (List.mem_cons_self n tl), fun x hx => hgood x (List.mem_cons_of_mem n hx)⟩
      obtain ⟨hne, hall⟩ : n.tag ≠ [] ∧ n.tag.all isNameChar = true := by
        unfold goodTag at hng
        simpa using hng
      obtain ⟨c2, t2, htag2⟩ := List.exists_cons_of_ne_nil hne
      have hc2 : isNameChar c2 = true := by
        have h2 := hall
        rw [htag2] at h2
        simp only [List.all_cons, Bool.and_eq_true] at h2
        exact h2.1
      have hc2slash : ¬ (c2 = '/') := by
        intro he
        rw [he] at hc2
        exact absurd hc2 (by decide)
      have hsh0 : serializeNode n ++ (serialNodes tl ++ '<' :: ('/' :: rest)) =
          '<' :: (c2 :: (t2 ++ ('>' :: (escCdata n.text ++ (serialLeaves n.children ++
            '<' :: ('/' :: (n.tag ++ '>' :: (escCdata n.tail ++
              (serialNodes tl ++ '<' :: ('/' :: rest)))))))))) := by
        unfold serializeNode
        rw [if_neg (show ¬ (n.text = [] ∧ n.children = []) from fun h => hnt h.1)]
        rw [htag2]
        simp [List.append_assoc, List.cons_append]
        rfl
      have hshape : escCdata pre ++ (serialNodes (n :: tl) ++ '<' :: ('/' :: rest)) =
          escCdata pre ++ '<' :: (c2 :: (t2 ++ ('>' :: (escCdata n.text ++
            (serialLeaves n.children ++ '<' :: ('/' :: (n.tag ++ '>' :: (escCdata n.tail ++
              (serialNodes tl ++ '<' :: ('/' :: rest)))))))))) := by
        rw [show serialNodes (n :: tl) = serializeNode n ++ serialNodes tl from rfl,
          List.append_assoc, hsh0]
      have helem := parseElemF_node (12 * tl.length + 8 + f - 2 * n.children.length) ns n
        (serialNodes tl ++ '<' :: ('/' :: rest)) hng hlg hnt hntv
      rw [show 2 * n.children.length + 4 + (12 * tl.length + 8 + f - 2 * n.children.length) =
        12 * tl.length + 12 + f from by omega] at helem
      rw [hsh0] at helem
      have hcont := ih htlg (11 + f) ns n.tail rest hntlv
      rw [show 12 * tl.length + 1 + (11 + f) = 12 * tl.length + 12 + f from by omega] at hcont
      rw [hshape]
      rw [show 12 * (n :: tl).length + 1 + f = Nat.succ (12 * tl.length + 12 + f) from by
        simp [List.length_cons]; omega]
      unfold parseContentF
      rw [parseTextF_escCdata pre _ _
        (by have := length_le_escCdata pre; simp [List.length_append]; omega) hpre]
      dsimp only
      rw [if_neg (show ¬ (('<' : Char) = '<' ∧ c2 = '/') from fun h => hc2slash h.2)]
      rw [if_pos (show ('<' : Char) = '<' from rfl)]
      rw [helem]
      dsimp only
      rw [hcont]
      rfl

/-- The serialized `urlset` root (with its `xmlns` declaration) parses
back: tags are qualified by the sitemap namespace and the children are
the parsed `url` elements. -/
theorem parseElemF_root (f : Nat) (ns : Str) (r : XmlRoot) (X : Str)
    (hattrs : r.attrs = [(ofStr ("xmlns"), sitemapNs)])
    (htag : goodTag r.tag = true)
    (hgood : ∀ n ∈ r.children, goodTag n.tag = true ∧
      (∀ l ∈ n.children, goodTag l.tag = true ∧ l.text.all isXmlChar = true ∧
        l.tail.all isXmlChar = true) ∧
      n.text ≠ [] ∧ n.text.all isXmlChar = true ∧ n.tail.all isXmlChar = true ∧
      n.children.length ≤ 4)
    (htext : r.text ≠ []) (hrtv : r.text.all isXmlChar = true) :
    parseElemF (12 * r.children.length + 4 + f) ns (serializeRoot r ++ X) =
      some (.mk (qualifyTag sitemapNs r.tag) r.text (r.children.map (resolveNode sitemapNs)),
        escCdata r.tail ++ X) := by
  obtain ⟨hne, hall⟩ : r.tag ≠ [] ∧ r.tag.all isNameChar = true := by
    unfold goodTag at htag
    simpa using htag
  have hshape : serializeRoot r ++ X =
      '<' :: (r.tag ++ ' ' :: (ofStr ("xmlns") ++ '=' :: '"' :: (sitemapNs ++ '"' :: '>' ::
        (escCdata r.text ++ (serialNodes r.children ++ '<' :: ('/' :: (r.tag ++ '>' ::
          (escCdata r.tail ++ X)))))))) := by
    unfold serializeRoot
    rw [hattrs, if_neg (show ¬ (r.text = [] ∧ r.children = []) from fun h => htext h.1)]
    rw [show serializeAttrs [(ofStr ("xmlns"), sitemapNs)] =
        ' ' :: (ofStr ("xmlns") ++ '=' :: '"' :: (sitemapNs ++ ['"'])) from by decide]
    simp [List.append_assoc, List.cons_append]
    rfl
  rw [hshape]
  rw [show 12 * r.children.length + 4 + f = Nat.succ (12 * r.children.length + 3 + f) from by
    omega]
  unfold parseElemF
  dsimp only
  rw [if_neg (show ¬ ¬ (('<' : Char) = '<') from by decide)]
  rw [takeWhile_append_stop isNameChar r.tag ' '
      (ofStr ("xmlns") ++ '=' :: '"' :: (sitemapNs ++ '"' :: '>' ::
        (escCdata r.text ++ (serialNodes r.children ++ '<' :: ('/' :: (r.tag ++ '>' ::
          (escCdata r.tail ++ X))))))) hall (by decide)]
  rw [if_neg hne]
  rw [show (r.tag ++ ' ' :: (ofStr ("xmlns") ++ '=' :: '"' :: (sitemapNs ++ '"' :: '>' ::
        (escCdata r.text ++ (serialNodes r.children ++ '<' :: ('/' :: (r.tag ++ '>' ::
          (escCdata r.tail ++ X)))))))).drop r.tag.length =
      ' ' :: (ofStr ("xmlns") ++ '=' :: '"' :: (sitemapNs ++ '"' :: '>' ::
        (escCdata r.text ++ (serialNodes r.children ++ '<' :: ('/' :: (r.tag ++ '>' ::
          (escCdata r.tail ++ X))))))) from List.drop_left _ _]
  rw [show (r.tag ++ ' ' :: (ofStr ("xmlns") ++ '=' :: '"' :: (sitemapNs ++ '"' :: '>' ::
        (escCdata r.text ++ (serialNodes r.children ++ '<' :: ('/' :: (r.tag ++ '>' ::
          (escCdata r.tail ++ X)))))))).length + 1 =
      ((r.tag ++ ' ' :: (ofStr ("xmlns") ++ '=' :: '"' :: (sitemapNs ++ '"' :: '>' ::
        (escCdata r.text ++ (serialNodes r.children ++ '<' :: ('/' :: (r.tag ++ '>' ::
          (escCdata r.tail ++ X)))))))).length - 1) + 2 from by
    have h1 := List.length_append r.tag (' ' :: (ofStr ("xmlns") ++ '=' :: '"' ::
      (sitemapNs ++ '"' :: '>' :: (escCdata r.text ++ (serialNodes r.children ++
        '<' :: ('/' :: (r.tag ++ '>' :: (escCdata r.tail ++ X))))))))
    have h2 := List.length_cons ' ' (ofStr ("xmlns") ++ '=' :: '"' ::
      (sitemapNs ++ '"' :: '>' :: (escCdata r.text ++ (serialNodes r.children ++
        '<' :: ('/' :: (r.tag ++ '>' :: (escCdata r.tail ++ X)))))))
    omega]
  rw [parseAttrsF_xmlns _
    (escCdata r.text ++ (serialNodes r.children ++ '<' :: ('/' :: (r.tag ++ '>' ::
      (escCdata r.tail ++ X)))))]
  dsimp only
  rw [if_neg (show ¬ (('>' : Char) = '/') from by decide),
    if_pos (show ('>' : Char) = '>' from rfl)]
  rw [show lookupAttr [(ofStr ("xmlns"), sitemapNs)] (ofStr ("xmlns")) = some sitemapNs from by
    decide]
  rw [Option.getD_some]
  rw [show 12 * r.children.length + 3 + f = 12 * r.children.length + 1 + (f + 2) from by omega]
  rw [parseContentF_nodes r.children hgood (f + 2) sitemapNs r.text
    (r.tag ++ '>' :: (escCdata r.tail ++ X)) hrtv]
  dsimp only
  rw [takeWhile_append_stop isNameChar r.tag '>' (escCdata r.tail ++ X) hall (by decide)]
  rw [if_neg (show ¬ (r.tag ≠ r.tag) from fun h => h rfl)]
  rw [show (r.tag ++ '>' :: (escCdata r.tail ++ X)).drop r.tag.length =
      '>' :: (escCdata r.tail ++ X) from List.drop_left _ _]
  rw [show ('>' :: (escCdata r.tail ++ X)).dropWhile isPySpace = '>' :: (escCdata r.tail ++ X)
      from dropWhile_cons_false '>' _ (by decide)]
  dsimp only
  rw [if_pos (show ('>' : Char) = '>' from rfl)]

theorem startsWith_iff (s pre : Str) : startsWith s pre = true ↔ s.take pre.length = pre := by
  unfold startsWith
  exact decide_eq_true_iff

/-- A first occurrence found strictly inside a prefix survives appending
a suffix. -/
theorem findSub_append (sub s X : Str) :
    ∀ (i : Nat), findSub sub s = some i → i + sub.length ≤ s.length →
      findSub sub (s ++ X) = some i := by
  induction s with
  | nil =>
      intro i h hlen
      unfold findSub at h
      split_ifs at h with hst
      have hsub : sub = [] := by
        have := (startsWith_iff [] sub).mp hst
        simpa using this.symm
      obtain rfl : i = 0 := by cases h; rfl
      rw [List.nil_append]
      cases X with
      | nil =>
          unfold findSub
          rw [if_pos ((startsWith_iff [] sub).mpr (by simp [hsub]))]
      | cons c t =>
          unfold findSub
          rw [if_pos ((startsWith_iff (c :: t) sub).mpr (by simp [hsub]))]
  | cons c t ih =>
      intro i h hlen
      unfold findSub at h
      rw [List.cons_append]
      by_cases hst : startsWith (c :: t) sub = true
      · rw [if_pos hst] at h
        obtain rfl : i = 0 := by cases h; rfl
        have htake : (c :: t).take sub.length = sub := (startsWith_iff _ _).mp hst
        have hlen' : sub.length ≤ (c :: t).length := by
          simpa using hlen
        unfold findSub
        rw [if_pos ((startsWith_iff (c :: (t ++ X)) sub).mpr (by
          rw [show (c :: (t ++ X)) = (c :: t) ++ X from rfl,
            List.take_append_of_le_length hlen']
          exact htake))]
      · rw [if_neg hst] at h
        obtain ⟨j, hj, rfl⟩ : ∃ j, findSub sub t = some j ∧ j + 1 = i := by
          rcases Option.map_eq_some'.mp h with ⟨j, hj1, hj2⟩
          exact ⟨j, hj1, hj2⟩
        have hlen' : j + sub.length ≤ t.length := by
          simp only [List.length_cons] at hlen
          omega
        have hsublen : sub.length ≤ (c :: t).length := by
          simp only [List.length_cons]
          omega
        unfold findSub
        rw [if_neg (show ¬ (startsWith (c :: (t ++ X)) sub = true) from by
          intro habs
          apply hst
          apply (startsWith_iff _ _).mpr
          have := (startsWith_iff _ _).mp habs
          rw [show (c :: (t ++ X)) = (c :: t) ++ X from rfl,
            List.take_append_of_le_length hsublen] at this
          exact this)]
        rw [ih j hj hlen']
        rfl

theorem dropWhile_serializeRoot (r : XmlRoot) :
    (serializeRoot r).dropWhile isPySpace = serializeRoot r := by
  have hs : serializeRoot r = '<' :: (r.tag ++ (serializeAttrs r.attrs ++
      ((if r.text = [] ∧ r.children = [] then ofStr (" />")
        else '>' :: escCdata r.text ++ serialNodes r.children ++ ofStr ("</") ++ r.tag ++ ['>']) ++
       escCdata r.tail))) := by
    unfold serializeRoot
    simp [List.cons_append, List.append_assoc]
  rw [hs]
  exact dropWhile_cons_false '<' _ (by decide)

/-- `ET.fromstring` on declaration + serialized root: the root element,
with any purely-whitespace tail tolerated after it. -/
theorem parseDoc_root (r : XmlRoot)
    (hattrs : r.attrs = [(ofStr ("xmlns"), sitemapNs)])
    (htag : goodTag r.tag = true)
    (hgood : ∀ n ∈ r.children, goodTag n.tag = true ∧
      (∀ l ∈ n.children, goodTag l.tag = true ∧ l.text.all isXmlChar = true ∧
        l.tail.all isXmlChar = true) ∧
      n.text ≠ [] ∧ n.text.all isXmlChar = true ∧ n.tail.all isXmlChar = true ∧
      n.children.length ≤ 4)
    (htext : r.text ≠ []) (hrtv : r.text.all isXmlChar = true)
    (htail : (escCdata r.tail).all isPySpace = true)
    (hN : 3 * r.children.length ≤ (serializeRoot r).length) :
    parseDoc (xmlDecl ++ serializeRoot r) =
      some (.mk (qualifyTag sitemapNs r.tag) r.text (r.children.map (resolveNode sitemapNs))) := by
  unfold parseDoc
  dsimp only
  rw [if_pos (show startsWith (xmlDecl ++ serializeRoot r) (ofStr ("<?xml")) = true from by
    apply (startsWith_iff _ _).mpr
    rw [List.take_append_of_le_length (by decide)]
    decide)]
  rw [findSub_append (ofStr ("?>")) xmlDecl (serializeRoot r) 36 (by decide) (by decide)]
  dsimp only
  rw [show (xmlDecl ++ serializeRoot r).drop (36 + 2) = '\n' :: serializeRoot r from by
    rw [List.drop_append_of_le_length (by decide)]
    rw [show xmlDecl.drop (36 + 2) = ['\n'] from by decide]
    rw [List.singleton_append]]
  rw [List.dropWhile_cons, if_pos (show isPySpace '\n' = true from by decide)]
  rw [dropWhile_serializeRoot]
  have hroot := parseElemF_root (4 * (serializeRoot r).length + 12 - 12 * r.children.length)
    [] r [] hattrs htag hgood htext hrtv
  simp only [List.append_nil] at hroot
  rw [show 12 * r.children.length + 4 +
      (4 * (serializeRoot r).length + 12 - 12 * r.children.length) =
      4 * (serializeRoot r).length + 16 from by omega] at hroot
  rw [hroot]
  dsimp only
  rw [if_pos htail]

theorem createUrlElement_some (e : SitemapEntry) (h : isValidUrlGen e.url = true) :
    createUrlElement e = some (urlNode e) := by
  unfold createUrlElement
  rw [if_neg]
  intro hor
  rcases hor with h1 | h2
  · rw [h1] at h
    exact absurd h (by decide)
  · exact h2 h

theorem filterMap_createUrlElement (es : List SitemapEntry)
    (h : ∀ e ∈ es, isValidUrlGen e.url = true) :
    es.filterMap createUrlElement = es.map urlNode := by
  induction es with
  | nil => rfl
  | cons e tl ih =>
      rw [List.filterMap_cons, createUrlElement_some e (h e (List.mem_cons_self e tl))]
      rw [ih (fun x hx => h x (List.mem_cons_of_mem e hx)), List.map_cons]

theorem urlNode_children_good (e : SitemapEntry) :
    ∀ l ∈ (urlNode e).children, goodTag l.tag = true := by
  intro l hl
  unfold urlNode at hl
  rcases List.mem_append.mp hl with h1 | h2
  · rcases List.mem_append.mp h1 with h1a | h1b
    · rcases List.mem_append.mp h1a with h1c | h1d
      · simp at h1c
        subst h1c
        exact (by decide : goodTag (ofStr ("loc")) = true)
      · split_ifs at h1d
        · simp at h1d
          subst h1d
          exact (by decide : goodTag (ofStr ("lastmod")) = true)
        · simp at h1d
    · split_ifs at h1b
      · simp at h1b
        subst h1b
        exact (by decide : goodTag (ofStr ("changefreq")) = true)
      · simp at h1b
  · split_ifs at h2
    · simp at h2
      subst h2
      exact (by decide : goodTag (ofStr ("priority")) = true)
    · simp at h2

theorem urlNode_children_len (e : SitemapEntry) : (urlNode e).children.length ≤ 4 := by
  unfold urlNode
  split_ifs <;> simp

theorem urlNode_children_ne (e : SitemapEntry) : (urlNode e).children ≠ [] := by
  unfold urlNode
  split_ifs <;> simp

theorem indentNode_tag (k : Nat) (n : XmlNode) : (indentNode k n).tag = n.tag := by
  unfold indentNode
  split_ifs <;> rfl

theorem indentNode_text_ne (k : Nat) (n : XmlNode) (hch : n.children ≠ []) :
    (indentNode k n).text ≠ [] := by
  unfold indentNode
  rw [if_neg hch]
  show (if isBlank n.text then indentStr k ++ ofStr ("  ") else n.text) ≠ []
  split_ifs with hb
  · simp [indentStr]
  · intro he
    rw [he] at hb
    exact hb (by decide)

theorem length_fixLastLeaf (ind : Str) (ls : List XmlLeaf) :
    (fixLastLeaf ind ls).length = ls.length := by
  induction ls with
  | nil => rfl
  | cons l rest ih =>
      cases rest with
      | nil => unfold fixLastLeaf; rfl
      | cons l2 rest2 =>
          show (l :: fixLastLeaf ind (l2 :: rest2)).length = _
          simp only [List.length_cons, ih]

theorem indentNode_children_len (k : Nat) (n : XmlNode) :
    (indentNode k n).children.length = n.children.length := by
  unfold indentNode
  split_ifs <;> simp [length_fixLastLeaf]

theorem indentNode_children_good (k : Nat) (n : XmlNode)
    (h : ∀ l ∈ n.children, goodTag l.tag = true) :
    ∀ l ∈ (indentNode k n).children, goodTag l.tag = true := by
  intro l hl
  unfold indentNode at hl
  by_cases hch : n.children = []
  · rw [if_pos hch] at hl
    split_ifs at hl
    · exact h l hl
    · exact h l hl
  · rw [if_neg hch] at hl
    have hl2 : l ∈ fixLastLeaf (indentStr k) (n.children.map (indentLeaf (k + 1))) := hl
    obtain ⟨l0, hl0, he⟩ := mem_fixLastLeaf_tag (indentStr k) _ l hl2
    rcases List.mem_map.mp hl0 with ⟨l1, hl1, rfl⟩
    rw [he, goodTag_indentLeaf]
    exact h l1 hl1

theorem length_fixLastNode (ind : Str) (ns' : List XmlNode) :
    (fixLastNode ind ns').length = ns'.length := by
  induction ns' with
  | nil => rfl
  | cons n rest ih =>
      cases rest with
      | nil => unfold fixLastNode; rfl
      | cons n2 rest2 =>
          show (n :: fixLastNode ind (n2 :: rest2)).length = _
          simp only [List.length_cons, ih]

theorem mem_fixLastNode (ind : Str) (ns' : List XmlNode) :
    ∀ n ∈ fixLastNode ind ns', ∃ n0 ∈ ns',
      n.tag = n0.tag ∧ n.text = n0.text ∧ n.children = n0.children ∧
      (n.tail = n0.tail ∨ n.tail = ind) := by
  induction ns' with
  | nil => intro n h; cases h
  | cons a rest ih =>
      cases rest with
      | nil =>
          intro n h
          unfold fixLastNode at h
          refine ⟨a, List.mem_cons_self a [], ?_⟩
          rcases List.mem_cons.mp h with rfl | h2
          · split_ifs
            · exact ⟨rfl, rfl, rfl, Or.inr rfl⟩
            · exact ⟨rfl, rfl, rfl, Or.inl rfl⟩
          · cases h2
      | cons a2 rest2 =>
          intro n h
          rcases List.mem_cons.mp h with rfl | h2
          · exact ⟨n, List.mem_cons_self n _, rfl, rfl, rfl, Or.inl rfl⟩
          · obtain ⟨n0, hn0, he⟩ := ih n h2
            exact ⟨n0, List.mem_cons_of_mem a hn0, he⟩

theorem escapeXml_ne_nil (s : Str) (h : s ≠ []) : escapeXml s ≠ [] := by
  cases s with
  | nil => exact absurd rfl h
  | cons c t =>
      show escapeXmlChar c ++ escapeXml t ≠ []
      intro he
      have : escapeXmlChar c = [] := by
        rcases List.append_eq_nil.mp he with ⟨h1, _⟩
        exact h1
      unfold escapeXmlChar at this
      split_ifs at this <;>
        first
        | exact absurd this (by decide)
        | exact (List.cons_ne_nil _ _) this

theorem serializeNode_len (n : XmlNode) : 3 ≤ (serializeNode n).length := by
  have h1 : (ofStr (" />")).length = 3 := by decide
  have h2 : (ofStr ("</")).length = 2 := by decide
  unfold serializeNode
  split_ifs <;> simp [List.length_append, h1, h2] <;> omega

theorem serialNodes_len (ns' : List XmlNode) : 3 * ns'.length ≤ (serialNodes ns').length := by
  induction ns' with
  | nil => simp [serialNodes]
  | cons n rest ih =>
      show 3 * (rest.length + 1) ≤ (serializeNode n ++ serialNodes rest).length
      rw [List.length_append]
      have := serializeNode_len n
      omega

theorem serializeRoot_len (r : XmlRoot) : 3 * r.children.length ≤ (serializeRoot r).length := by
  have h2 : (ofStr ("</")).length = 2 := by decide
  unfold serializeRoot
  split_ifs with h
  · rw [h.2]
    simp
  · have h3 := serialNodes_len r.children
    simp [List.length_append, h2]
    omega

theorem escapeXml_all_xml (t : Str) (h : t.all isXmlChar = true) :
    (escapeXml t).all isXmlChar = true := by
  induction t with
  | nil => rfl
  | cons c t ih =>
      obtain ⟨hc, ht⟩ : isXmlChar c = true ∧ t.all isXmlChar = true := by
        simpa only [List.all_cons, Bool.and_eq_true] using h
      show (escapeXmlChar c ++ escapeXml t).all isXmlChar = true
      rw [List.all_append, ih ht, Bool.and_true]
      unfold escapeXmlChar
      split_ifs <;> first | decide | simpa using hc

theorem indentStr_all_xml (k : Nat) : (indentStr k).all isXmlChar = true := by
  apply List.all_eq_true.mpr
  intro c hc
  unfold indentStr at hc
  rcases List.mem_cons.mp hc with rfl | h2
  · decide
  · rw [List.eq_of_mem_replicate h2]
    decide

theorem mem_fixLastLeaf_fields (ind : Str) (ls : List XmlLeaf) :
    ∀ l ∈ fixLastLeaf ind ls, ∃ l0 ∈ ls,
      l.tag = l0.tag ∧ l.text = l0.text ∧ (l.tail = l0.tail ∨ l.tail = ind) := by
  induction ls with
  | nil => intro l h; cases h
  | cons a rest ih =>
      cases rest with
      | nil =>
          intro l h
          unfold fixLastLeaf at h
          refine ⟨a, List.mem_cons_self a [], ?_⟩
          rcases List.mem_cons.mp h with rfl | h2
          · split_ifs
            · exact ⟨rfl, rfl, Or.inr rfl⟩
            · exact ⟨rfl, rfl, Or.inl rfl⟩
          · cases h2
      | cons a2 rest2 =>
          intro l h
          rcases List.mem_cons.mp h with rfl | h2
          · exact ⟨l, List.mem_cons_self l _, rfl, rfl, Or.inl rfl⟩
          · obtain ⟨l0, hl0, he⟩ := ih l h2
            exact ⟨l0, List.mem_cons_of_mem a hl0, he⟩

/-- Indentation rewrites only tails (to whitespace), so XML character
validity of leaf texts and tails survives `_indent_xml`. -/
theorem indented_leaves_valid (ind : Str) (k : Nat) (ls : List XmlLeaf)
    (hind : ind.all isXmlChar = true)
    (h : ∀ l ∈ ls, l.text.all isXmlChar = true ∧ l.tail.all isXmlChar = true) :
    ∀ l ∈ fixLastLeaf ind (ls.map (indentLeaf k)),
      l.text.all isXmlChar = true ∧ l.tail.all isXmlChar = true := by
  intro l hl
  obtain ⟨l0, hl0, htag, htext, htail⟩ := mem_fixLastLeaf_fields ind _ l hl
  rcases List.mem_map.mp hl0 with ⟨l1, hl1, rfl⟩
  obtain ⟨h1t, h1l⟩ := h l1 hl1
  constructor
  · rw [htext]
    rw [show (indentLeaf k l1).text = l1.text from by unfold indentLeaf; split_ifs <;> rfl]
    exact h1t
  · rcases htail with he | he
    · rw [he]
      unfold indentLeaf
      split_ifs
      · exact indentStr_all_xml k
      · exact h1l
    · rw [he]
      exact hind

theorem indentNode_text_valid (k : Nat) (n : XmlNode) (h : n.text.all isXmlChar = true) :
    (indentNode k n).text.all isXmlChar = true := by
  unfold indentNode
  split_ifs <;>
    first
    | exact h
    | (show (indentStr k ++ ofStr ("  ")).all isXmlChar = true
       rw [List.all_append, indentStr_all_xml k]
       decide)

theorem indentNode_tail_valid (k : Nat) (n : XmlNode) (h : n.tail.all isXmlChar = true) :
    (indentNode k n).tail.all isXmlChar = true := by
  unfold indentNode
  split_ifs <;> first | exact h | exact indentStr_all_xml k

theorem indentNode_children_valid (k : Nat) (n : XmlNode)
    (h : ∀ l ∈ n.children, l.text.all isXmlChar = true ∧ l.tail.all isXmlChar = true) :
    ∀ l ∈ (indentNode k n).children,
      l.text.all isXmlChar = true ∧ l.tail.all isXmlChar = true := by
  intro l hl
  unfold indentNode at hl
  by_cases hch : n.children = []
  · rw [if_pos hch] at hl
    split_ifs at hl
    · exact h l hl
    · exact h l hl
  · rw [if_neg hch] at hl
    have hl2 : l ∈ fixLastLeaf (indentStr k) (n.children.map (indentLeaf (k + 1))) := hl
    exact indented_leaves_valid (indentStr k) (k + 1) n.children (indentStr_all_xml k) h l hl2

theorem urlNode_children_valid (e : SitemapEntry)
    (hu : e.url.all isXmlChar = true) (hlm : e.lastmod.all isXmlChar = true)
    (hcf : e.changefreq.all isXmlChar = true) (hpr : e.priority.all isXmlChar = true) :
    ∀ l ∈ (urlNode e).children,
      l.text.all isXmlChar = true ∧ l.tail.all isXmlChar = true := by
  intro l hl
  unfold urlNode at hl
  rcases List.mem_append.mp hl with h1 | h2
  · rcases List.mem_append.mp h1 with h1a | h1b
    · rcases List.mem_append.mp h1a with h1c | h1d
      · simp at h1c
        subst h1c
        exact ⟨escapeXml_all_xml e.url hu, rfl⟩
      · split_ifs at h1d
        · simp at h1d
          subst h1d
          exact ⟨hlm, rfl⟩
        · simp at h1d
    · split_ifs at h1b
      · simp at h1b
        subst h1b
        exact ⟨hcf, rfl⟩
      · simp at h1b
  · split_ifs at h2
    · simp at h2
      subst h2
      exact ⟨hpr, rfl⟩
    · simp at h2

set_option maxRecDepth 1000000 in
/-- C9, counterexample.  An entry whose URL is well-formed (it passes
`_is_valid_url`: a valid http(s) URL far below 2048 characters) but
whose `lastmod` holds the control character U+0001 defeats the claimed
round-trip: the serializer writes the raw character, expat rejects the
document as not well-formed, and `validate_sitemap` reports it invalid
instead of `valid: true` with `url_count = 1`. -/
theorem c9_counterexample :
    ([c9Entry] : List SitemapEntry).length ≤ 50000 ∧
    (∀ e ∈ ([c9Entry] : List SitemapEntry), isValidUrlGen e.url = true) ∧
    validateSitemap (generateSitemap [c9Entry]) = Except.error ValidateError.parseError :=
  ⟨by decide, by decide, by decide⟩

set_option maxRecDepth 1000000 in
/-- C9, amended: for every list of at most 50,000 entries whose URLs
pass the generator's `_is_valid_url` check (well-formed http(s) URLs of
at most 2048 characters) and all of whose fields (url, lastmod,
changefreq, priority) consist of XML-valid characters,
`validate_sitemap (generate_sitemap entries)` reports the document
valid with a URL count equal to the length of the list. -/
theorem c9_amended (es : List SitemapEntry) (hlen : es.length ≤ 50000)
    (hurl : ∀ e ∈ es, isValidUrlGen e.url = true ∧ e.url.all isXmlChar = true ∧
      e.lastmod.all isXmlChar = true ∧ e.changefreq.all isXmlChar = true ∧
      e.priority.all isXmlChar = true) :
    validateSitemap (generateSitemap es) = Except.ok es.length := by
  cases es with
  | nil => rfl
  | cons e0 tl =>
      have hfm : (e0 :: tl).filterMap createUrlElement = (e0 :: tl).map urlNode :=
        filterMap_createUrlElement _ (fun e he => (hurl e he).1)
      have hch : (e0 :: tl).map urlNode ≠ [] := by simp
      have hR : indentRoot (urlsetRoot (e0 :: tl)) =
          ⟨ofStr ("urlset"), [(ofStr ("xmlns"), sitemapNs)], indentStr 0 ++ ofStr ("  "),
            fixLastNode (indentStr 0) (((e0 :: tl).map urlNode).map (indentNode 1)),
            indentStr 0⟩ := by
        unfold urlsetRoot indentRoot
        dsimp only
        rw [hfm]
        rw [if_neg hch]
        rfl
      have hgood : ∀ n ∈ fixLastNode (indentStr 0) (((e0 :: tl).map urlNode).map (indentNode 1)),
          goodTag n.tag = true ∧
          (∀ l ∈ n.children, goodTag l.tag = true ∧ l.text.all isXmlChar = true ∧
            l.tail.all isXmlChar = true) ∧
          n.text ≠ [] ∧ n.text.all isXmlChar = true ∧ n.tail.all isXmlChar = true ∧
          n.children.length ≤ 4 := by
        intro n hn
        obtain ⟨n0, hn0, htg, htx, hcs, htl⟩ := mem_fixLastNode _ _ n hn
        rcases List.mem_map.mp hn0 with ⟨n1, hn1, rfl⟩
        rcases List.mem_map.mp hn1 with ⟨e, he, rfl⟩
        obtain ⟨hvurl, hu, hlm, hcf, hpr⟩ := hurl e he
        refine ⟨?_, ?_, ?_, ?_, ?_, ?_⟩
        · rw [htg, indentNode_tag]
          exact (by decide : goodTag (ofStr ("url")) = true)
        · intro l hl
          rw [hcs] at hl
          have hg := indentNode_children_good 1 (urlNode e) (urlNode_children_good e) l hl
          have hv := indentNode_children_valid 1 (urlNode e)
            (urlNode_children_valid e hu hlm hcf hpr) l hl
          exact ⟨hg, hv.1, hv.2⟩
        · rw [htx]
          exact indentNode_text_ne 1 (urlNode e) (urlNode_children_ne e)
        · rw [htx]
          exact indentNode_text_valid 1 (urlNode e) rfl
        · rcases htl with he2 | he2
          · rw [he2]
            exact indentNode_tail_valid 1 (urlNode e) rfl
          · rw [he2]
            exact indentStr_all_xml 0
        · rw [hcs, indentNode_children_len]
          exact urlNode_children_len e
      show validateSitemap (xmlDecl ++ serializeRoot (indentRoot (urlsetRoot (e0 :: tl)))) = _
      rw [hR]
      unfold validateSitemap
      rw [parseDoc_root _ rfl
        ((by decide : goodTag (ofStr ("urlset")) = true))
        hgood
        ((by decide : (indentStr 0 ++ ofStr ("  ") : Str) ≠ []))
        ((by decide : ((indentStr 0 ++ ofStr ("  ")) : Str).all isXmlChar = true))
        ((by decide : (escCdata (indentStr 0)).all isPySpace = true))
        (serializeRoot_len _)]
      dsimp only
      rw [show (PElem.mk (qualifyTag sitemapNs (ofStr ("urlset"))) (indentStr 0 ++ ofStr ("  "))
            ((fixLastNode (indentStr 0) (((e0 :: tl).map urlNode).map (indentNode 1))).map
              (resolveNode sitemapNs))).tag = qualifyTag sitemapNs (ofStr ("urlset")) from rfl]
      rw [if_neg (show ¬ (qualifyTag sitemapNs (ofStr ("urlset")) ≠ nsTag (ofStr ("urlset")))
        from fun h => h (by decide))]
      rw [show (PElem.mk (qualifyTag sitemapNs (ofStr ("urlset"))) (indentStr 0 ++ ofStr ("  "))
            ((fixLastNode (indentStr 0) (((e0 :: tl).map urlNode).map (indentNode 1))).map
              (resolveNode sitemapNs))).children =
          (fixLastNode (indentStr 0) (((e0 :: tl).map urlNode).map (indentNode 1))).map
            (resolveNode sitemapNs) from rfl]
      have hfilter :
          ((fixLastNode (indentStr 0) (((e0 :: tl).map urlNode).map (indentNode 1))).map
            (resolveNode sitemapNs)).filter (fun u => u.tag == nsTag (ofStr ("url"))) =
          (fixLastNode (indentStr 0) (((e0 :: tl).map urlNode).map (indentNode 1))).map
            (resolveNode sitemapNs) := by
        apply List.filter_eq_self.mpr
        intro u hu
        rcases List.mem_map.mp hu with ⟨n, hn, rfl⟩
        obtain ⟨n0, hn0, htg, _, _, _⟩ := mem_fixLastNode _ _ n hn
        rcases List.mem_map.mp hn0 with ⟨n1, hn1, rfl⟩
        rcases List.mem_map.mp hn1 with ⟨e, he, rfl⟩
        show (qualifyTag sitemapNs n.tag == nsTag (ofStr ("url"))) = true
        rw [htg, indentNode_tag]
        exact (by decide : (qualifyTag sitemapNs (ofStr ("url")) == nsTag (ofStr ("url"))) = true)
      rw [hfilter]
      have hL : ((fixLastNode (indentStr 0) (((e0 :: tl).map urlNode).map (indentNode 1))).map
          (resolveNode sitemapNs)).length = (e0 :: tl).length := by
        rw [List.length_map, length_fixLastNode, List.length_map, List.length_map]
      rw [hL]
      rw [if_neg (show ¬ (50000 < (e0 :: tl).length) from by omega)]
      have hany : ¬ (((fixLastNode (indentStr 0) (((e0 :: tl).map urlNode).map
            (indentNode 1))).map (resolveNode sitemapNs)).any (fun u =>
          match u.children.find? (fun c => c.tag == nsTag (ofStr ("loc"))) with
          | none => true
          | some loc => loc.text = []) = true) := by
        intro habs
        rcases List.any_eq_true.mp habs with ⟨u, hu, hp⟩
        rcases List.mem_map.mp hu with ⟨n, hn, rfl⟩
        obtain ⟨n0, hn0, htg, htx, hcs, htl⟩ := mem_fixLastNode _ _ n hn
        rcases List.mem_map.mp hn0 with ⟨n1, hn1, rfl⟩
        rcases List.mem_map.mp hn1 with ⟨e, he, rfl⟩
        rw [show (resolveNode sitemapNs n).children = n.children.map (resolveLeaf sitemapNs)
          from rfl] at hp
        rw [hcs] at hp
        rw [show (indentNode 1 (urlNode e)).children =
            fixLastLeaf (indentStr 1) ((urlNode e).children.map (indentLeaf 2)) from by
          unfold indentNode
          rw [if_neg (urlNode_children_ne e)]] at hp
        rw [map_resolveLeaf_fixLastLeaf, List.map_map] at hp
        rw [show (resolveLeaf sitemapNs ∘ indentLeaf 2) = resolveLeaf sitemapNs from
          funext (fun l => resolveLeaf_indentLeaf sitemapNs 2 l)] at hp
        rw [show (urlNode e).children = (⟨ofStr ("loc"), escapeXml e.url, []⟩ : XmlLeaf) ::
            ((if e.lastmod ≠ [] then [⟨ofStr ("lastmod"), e.lastmod, []⟩] else []) ++
             ((if e.changefreq ≠ [] then [⟨ofStr ("changefreq"), e.changefreq, []⟩] else []) ++
              (if e.priority ≠ [] then [⟨ofStr ("priority"), e.priority, []⟩] else []))) from by
          unfold urlNode
          simp [List.cons_append, List.append_assoc]] at hp
        rw [List.map_cons] at hp
        rw [@List.find?_cons_of_pos _ (fun c => c.tag == nsTag (ofStr ("loc")))
          (resolveLeaf sitemapNs ⟨ofStr ("loc"), escapeXml e.url, []⟩)
          (((if e.lastmod ≠ [] then [(⟨ofStr ("lastmod"), e.lastmod, []⟩ : XmlLeaf)] else []) ++
            ((if e.changefreq ≠ [] then [(⟨ofStr ("changefreq"), e.changefreq, []⟩ : XmlLeaf)]
              else []) ++
             (if e.priority ≠ [] then [(⟨ofStr ("priority"), e.priority, []⟩ : XmlLeaf)]
              else []))).map (resolveLeaf sitemapNs))
          ((by decide : (qualifyTag sitemapNs (ofStr ("loc")) == nsTag (ofStr ("loc"))) = true))]
          at hp
        have hnil : escapeXml e.url = [] := by simpa using hp
        have hne : e.url ≠ [] := by
          intro h0
          have hv := (hurl e he).1
          rw [h0] at hv
          exact absurd hv (by decide)
        exact escapeXml_ne_nil e.url hne hnil
      rw [if_neg hany]

set_option maxRecDepth 1000000 in
theorem c9_amended_witness :
    ([tEntry1, tEntry2] : List SitemapEntry).length ≤ 50000 ∧
    (∀ e ∈ ([tEntry1, tEntry2] : List SitemapEntry), isValidUrlGen e.url = true ∧
      e.url.all isXmlChar = true ∧ e.lastmod.all isXmlChar = true ∧
      e.changefreq.all isXmlChar = true ∧ e.priority.all isXmlChar = true) ∧
    validateSitemap (generateSitemap [tEntry1, tEntry2]) = Except.ok 2 :=
  ⟨by decide, by decide, c9_amended [tEntry1, tEntry2] (by decide) (by decide)⟩

end Sitemap
